import Mathlib

/-!
Verification development for the Location-Coordinate-Township-Administration-
Classification-System repository.

The repository's core consists of:
* `twd97ToWgs84` — the TWD97 → WGS84 inverse Transverse-Mercator converter
  (src/unnamed/part_000, lines 6–55);
* `parseCoordinates` — the loose text parser extracting (x, y) pairs
  (src/unnamed/part_000, lines 57–75);
* `processCoordinates` — the batch orchestrator driving township
  classification in chunks of `BATCH_SIZE` (src/unnamed/part_001,
  lines 55–99, the primary document of that file; the documents after the
  related-document separator markers are retrieval context, not the
  repository file).

Modelling conventions:
* JavaScript numbers are modelled as exact rationals.  Where double-precision
  semantics matter (the converter claims) the arithmetic is routed through a
  `MathModel` record; `doubleModel` interprets every operation with `fl`,
  an executable round-to-nearest-even binary64 rounding on `ℚ`, and keeps the
  platform-dependent transcendental functions (`Math.sin`, `Math.cos`,
  `Math.tan`, `Math.sqrt`, `Math.pow`) opaque, constrained only by
  hypotheses where a claim needs them (e.g. `sin 0 = 0`).
* The classification client is an arbitrary function from chunk start index
  and submitted batch to `Option (List IdentEntry)`; `none` models a
  rejected promise, which the orchestrator's `catch` block absorbs.
* The orchestrator is embedded as a fuel-indexed tail recursion mirroring the
  `for (let i = 0; i < resultData.length; i += BATCH_SIZE)` loop; the fuel
  (`allData.length`) strictly exceeds the number of iterations, so the guard
  `i < d.length` from the source decides termination exactly as in the code.
  Every observable effect (each `onProgress` invocation with its snapshot,
  the inter-chunk `delay`, each client call with its batch) is recorded in an
  event trace.
-/

/-! ### Exact binary64 rounding on `ℚ` -/

/-- Fuel-indexed bit length helper: counts how many halvings reach zero. -/
def bitLenAux : ℕ → ℕ → ℕ
  | 0, _ => 0
  | fuel + 1, n => if n = 0 then 0 else bitLenAux fuel (n / 2) + 1

/-- Number of binary digits of `n` (`bitLen 0 = 0`, `bitLen 1 = 1`, …). -/
def bitLen (n : ℕ) : ℕ := bitLenAux n n

/-- Structural power on `ℚ` (kept executable down to the kernel). -/
def qpowNat (b : ℚ) : ℕ → ℚ
  | 0 => 1
  | n + 1 => b * qpowNat b n

/-- The rational `2 ^ z` for an integer exponent. -/
def qpow2 (z : ℤ) : ℚ := if 0 ≤ z then qpowNat 2 z.toNat else (qpowNat 2 (-z).toNat)⁻¹

/-- For `q > 0`, the exponent `e` with `2 ^ e ≤ q < 2 ^ (e + 1)`. -/
def qexp (q : ℚ) : ℤ :=
  let c : ℤ := (bitLen q.num.natAbs : ℤ) - (bitLen q.den : ℤ)
  if qpow2 c ≤ q then c else c - 1

/-- Round a nonnegative rational to the nearest integer, ties to even
(`Int.ediv` on the reduced fraction is the floor, as the denominator is
positive). -/
def rhe (s : ℚ) : ℤ :=
  let f := s.num.ediv (s.den : ℤ)
  let r := s - (f : ℚ)
  if r < 1 / 2 then f
  else if 1 / 2 < r then f + 1
  else if f % 2 = 0 then f else f + 1

/-- Round-to-nearest-even binary64 rounding of a rational: the significand is
rounded to 53 bits at the binade of `q` (clamped below at the subnormal
threshold).  Values beyond the finite double range do not occur in this
development, so no overflow clamping is modelled. -/
def fl (q : ℚ) : ℚ :=
  if q = 0 then 0
  else
    let aq := if q < 0 then -q else q
    let e0 := qexp aq
    let e := if e0 < -1022 then -1022 else e0
    let m := rhe (aq * qpow2 (52 - e))
    (if q < 0 then -1 else 1) * (m : ℚ) * qpow2 (e - 52)

/-! ### The projection converter (src/unnamed/part_000, lines 6–55)

`twd97ToWgs84` is transliterated term-for-term from the source over an
abstract arithmetic `MathModel`, preserving the evaluation order and operator
precedence of the JavaScript expressions.  `A.lit` interprets each numeric
literal (under double semantics a literal denotes its nearest double). -/

/-- Interpretation of the JavaScript arithmetic used by `twd97ToWgs84`. -/
structure MathModel where
  add : ℚ → ℚ → ℚ
  sub : ℚ → ℚ → ℚ
  mul : ℚ → ℚ → ℚ
  div : ℚ → ℚ → ℚ
  pow : ℚ → ℚ → ℚ
  sqrt : ℚ → ℚ
  sin : ℚ → ℚ
  cos : ℚ → ℚ
  tan : ℚ → ℚ
  pi : ℚ
  lit : ℚ → ℚ

/-- Embedding of `twd97ToWgs84 (x, y)` from src/unnamed/part_000, lines 6–55,
returning `(lat, lng)`. -/
def twd97ToWgs84 (A : MathModel) (x y : ℚ) : ℚ × ℚ :=
  let a := A.lit 6378137
  let b := A.lit 6356752.314245
  let long0 := A.div (A.mul (A.lit 121) A.pi) (A.lit 180)
  let k0 := A.lit 0.9999
  let dx := A.lit 250000
  let e := A.sqrt (A.sub (A.lit 1) (A.div (A.pow b (A.lit 2)) (A.pow a (A.lit 2))))
  let e2 := A.div (A.pow e (A.lit 2)) (A.sub (A.lit 1) (A.pow e (A.lit 2)))
  let xx := A.sub x dx
  let Mv := A.div y k0
  let mu := A.div Mv (A.mul a (A.sub (A.sub (A.sub (A.lit 1)
      (A.div (A.pow e (A.lit 2)) (A.lit 4)))
      (A.div (A.mul (A.lit 3) (A.pow e (A.lit 4))) (A.lit 64)))
      (A.div (A.mul (A.lit 5) (A.pow e (A.lit 6))) (A.lit 256))))
  let e1 := A.div (A.sub (A.lit 1) (A.sqrt (A.sub (A.lit 1) (A.pow e (A.lit 2)))))
      (A.add (A.lit 1) (A.sqrt (A.sub (A.lit 1) (A.pow e (A.lit 2)))))
  let J1 := A.sub (A.div (A.mul (A.lit 3) e1) (A.lit 2))
      (A.div (A.mul (A.lit 27) (A.pow e1 (A.lit 3))) (A.lit 32))
  let J2 := A.sub (A.div (A.mul (A.lit 21) (A.pow e1 (A.lit 2))) (A.lit 16))
      (A.div (A.mul (A.lit 55) (A.pow e1 (A.lit 4))) (A.lit 32))
  let J3 := A.div (A.mul (A.lit 151) (A.pow e1 (A.lit 3))) (A.lit 96)
  let J4 := A.div (A.mul (A.lit 1097) (A.pow e1 (A.lit 4))) (A.lit 512)
  let fp := A.add (A.add (A.add (A.add mu (A.mul J1 (A.sin (A.mul (A.lit 2) mu))))
      (A.mul J2 (A.sin (A.mul (A.lit 4) mu))))
      (A.mul J3 (A.sin (A.mul (A.lit 6) mu))))
      (A.mul J4 (A.sin (A.mul (A.lit 8) mu)))
  let C1 := A.mul e2 (A.pow (A.cos fp) (A.lit 2))
  let T1 := A.pow (A.tan fp) (A.lit 2)
  let R1 := A.div (A.mul a (A.sub (A.lit 1) (A.pow e (A.lit 2))))
      (A.pow (A.sub (A.lit 1) (A.mul (A.pow e (A.lit 2)) (A.pow (A.sin fp) (A.lit 2)))) (A.lit 1.5))
  let N1 := A.div a (A.sqrt (A.sub (A.lit 1) (A.mul (A.pow e (A.lit 2)) (A.pow (A.sin fp) (A.lit 2)))))
  let D := A.div xx (A.mul N1 k0)
  let Q1 := A.div (A.mul N1 (A.tan fp)) R1
  let Q2 := A.div (A.pow D (A.lit 2)) (A.lit 2)
  let Q3 := A.div (A.mul (A.sub (A.sub (A.add (A.add (A.lit 5) (A.mul (A.lit 3) T1))
      (A.mul (A.lit 10) C1)) (A.mul (A.lit 4) (A.pow C1 (A.lit 2))))
      (A.mul (A.lit 9) e2)) (A.pow D (A.lit 4))) (A.lit 24)
  let Q4 := A.div (A.mul (A.sub (A.sub (A.add (A.add (A.add (A.lit 61)
      (A.mul (A.lit 90) T1)) (A.mul (A.lit 298) C1)) (A.mul (A.lit 45) (A.pow T1 (A.lit 2))))
      (A.mul (A.lit 252) e2)) (A.mul (A.lit 3) (A.pow C1 (A.lit 2))))
      (A.pow D (A.lit 6))) (A.lit 720)
  let lat0 := A.sub fp (A.mul Q1 (A.add (A.sub Q2 Q3) Q4))
  let Q5 := D
  let Q6 := A.div (A.mul (A.add (A.add (A.lit 1) (A.mul (A.lit 2) T1)) C1)
      (A.pow D (A.lit 3))) (A.lit 6)
  let Q7 := A.div (A.mul (A.add (A.add (A.sub (A.add (A.sub (A.lit 5)
      (A.mul (A.lit 2) C1)) (A.mul (A.lit 28) T1)) (A.mul (A.lit 3) (A.pow C1 (A.lit 2))))
      (A.mul (A.lit 8) e2)) (A.mul (A.lit 24) (A.pow T1 (A.lit 2))))
      (A.pow D (A.lit 5))) (A.lit 120)
  let lng0 := A.add long0 (A.div (A.add (A.sub Q5 Q6) Q7) (A.cos fp))
  let lat := A.div (A.mul lat0 (A.lit 180)) A.pi
  let lng := A.div (A.mul lng0 (A.lit 180)) A.pi
  (lat, lng)

/-- Double-precision interpretation: every arithmetic operation and literal is
rounded with `fl`; the transcendental library functions are opaque parameters
(`Math.pow`, `Math.sqrt`, `Math.sin`, `Math.cos`, `Math.tan` are
platform-supplied and not correctly-rounded in general); `pi` is the exact
rational value of the double constant `Math.PI`. -/
def doubleModel (sq si co ta : ℚ → ℚ) (pw : ℚ → ℚ → ℚ) : MathModel where
  add u v := fl (u + v)
  sub u v := fl (u - v)
  mul u v := fl (u * v)
  div u v := fl (u / v)
  pow := pw
  sqrt := sq
  sin := si
  cos := co
  tan := ta
  pi := 884279719003555 / 281474976710656
  lit := fl

/-! ### The coordinate parser (src/unnamed/part_000, lines 57–75)

The parser works on the string's character list.  `parseFloatJs` models the
ECMAScript `parseFloat` grammar (optional sign, the literal `Infinity`, or a
decimal literal with optional fraction and exponent, taken as the longest
valid prefix; anything else is `NaN`).  Values are exact rationals; the
`Infinity` literal is represented explicitly.  `sra`/`srSkip` model
`split(/[,\t\s]+/)` (runs of comma, tab or whitespace, with JavaScript's
boundary behaviour), `splitNLAux` models `split('\n')`, and `trimList`
models `String.prototype.trim`. -/

/-- JavaScript number as produced by `parseFloat`. -/
inductive JsNum where
  | nan : JsNum
  | inf : JsNum
  | neginf : JsNum
  | fin : ℚ → JsNum
deriving DecidableEq

/-- The `isNaN` predicate of JavaScript. -/
def JsNum.isNaN : JsNum → Bool
  | .nan => true
  | _ => false

/-- Finiteness of a `parseFloat` result (used to state C3's "finite"). -/
def JsNum.isFinite : JsNum → Bool
  | .fin _ => true
  | _ => false

/-- The JavaScript comparison `v > c` for a finite literal bound `c`. -/
def JsNum.gtQ : JsNum → ℚ → Bool
  | .nan, _ => false
  | .inf, _ => true
  | .neginf, _ => false
  | .fin q, c => decide (c < q)

/-- Longest prefix of decimal digits, with the rest of the input. -/
def takeDigits : List Char → List Char × List Char
  | [] => ([], [])
  | c :: r =>
    if c.isDigit then
      let p := takeDigits r
      (c :: p.1, p.2)
    else ([], c :: r)

/-- Numeric value of a digit string (most significant first). -/
def digitsToNat (l : List Char) : ℕ :=
  l.foldl (fun a c => a * 10 + (c.toNat - ('0').toNat)) 0

/-- The rational `10 ^ z` for an integer exponent. -/
def qpow10 (z : ℤ) : ℚ := if 0 ≤ z then qpowNat 10 z.toNat else (qpowNat 10 (-z).toNat)⁻¹

/-- Exponent clause after the `e`/`E` marker: optional sign then digits;
an incomplete clause contributes exponent 0 (it is not consumed). -/
def parseExpTail (r : List Char) : ℤ :=
  match r with
  | '+' :: r2 => let p := takeDigits r2; if p.1 = [] then 0 else (digitsToNat p.1 : ℤ)
  | '-' :: r2 => let p := takeDigits r2; if p.1 = [] then 0 else -(digitsToNat p.1 : ℤ)
  | r2 => let p := takeDigits r2; if p.1 = [] then 0 else (digitsToNat p.1 : ℤ)

/-- Optional exponent part `e`/`E` followed by a signed digit string. -/
def parseExp : List Char → ℤ
  | 'e' :: r => parseExpTail r
  | 'E' :: r => parseExpTail r
  | _ => 0

/-- Value of integer digits `ip` and fraction digits `fr`. -/
def mantissa (ip fr : List Char) : ℚ :=
  (digitsToNat ip : ℚ) + (digitsToNat fr : ℚ) / qpowNat 10 fr.length

/-- Unsigned decimal literal prefix: `Digits [. Digits] [Exp]` or
`. Digits [Exp]`; `none` when no valid prefix exists. -/
def parseUnsigned (l : List Char) : Option ℚ :=
  let p := takeDigits l
  if p.1 = [] then
    match p.2 with
    | '.' :: r2 =>
      let q := takeDigits r2
      if q.1 = [] then none
      else some (mantissa [] q.1 * qpow10 (parseExp q.2))
    | _ => none
  else
    match p.2 with
    | '.' :: r2 =>
      let q := takeDigits r2
      some (mantissa p.1 q.1 * qpow10 (parseExp q.2))
    | _ => some (mantissa p.1 [] * qpow10 (parseExp p.2))

/-- Does `pat` occur at the head of `l`? -/
def startsWithSeq : List Char → List Char → Bool
  | [], _ => true
  | _ :: _, [] => false
  | p :: ps, c :: cs => p = c && startsWithSeq ps cs

/-- Substring occurrence test, modelling `String.prototype.includes`. -/
def containsSub (hay pat : List Char) : Bool :=
  startsWithSeq pat hay ||
    match hay with
    | [] => false
    | _ :: t => containsSub t pat

/-- The ECMAScript `parseFloat` applied to a token. -/
def parseFloatJs (l : List Char) : JsNum :=
  let sr : Bool × List Char :=
    match l with
    | '-' :: r => (true, r)
    | '+' :: r => (false, r)
    | r => (false, r)
  if startsWithSeq (("Infinity").data) sr.2 then
    if sr.1 then .neginf else .inf
  else
    match parseUnsigned sr.2 with
    | some q => .fin (if sr.1 then -q else q)
    | none => .nan

/-- Whitespace for `trim` and the `\s` class (space, tab, LF, CR, VT, FF;
the rarer Unicode space code points are not modelled). -/
def isJsWs (c : Char) : Bool := c.isWhitespace || c.toNat = 11 || c.toNat = 12

/-- Delimiter class of the split regex `[,\t\s]+`. -/
def isDelim (c : Char) : Bool := c = ',' || c = '\t' || isJsWs c

mutual

/-- Token accumulation state of `split(/[,\t\s]+/)`: `cur` is the reversed
current token. -/
def sra (cur : List Char) : List Char → List (List Char)
  | [] => [cur.reverse]
  | c :: r => if isDelim c then cur.reverse :: srSkip r else sra (c :: cur) r

/-- Delimiter-run skipping state of `split(/[,\t\s]+/)`. -/
def srSkip : List Char → List (List Char)
  | [] => [[]]
  | c :: r => if isDelim c then srSkip r else sra [c] r

end

/-- Split on `'\n'`, keeping empty lines, modelling `split('\n')`. -/
def splitNLAux (cur : List Char) : List Char → List (List Char)
  | [] => [cur.reverse]
  | c :: r => if c = '\n' then cur.reverse :: splitNLAux [] r else splitNLAux (c :: cur) r

/-- Strip leading and trailing whitespace, modelling `trim()`. -/
def trimList (l : List Char) : List Char :=
  ((l.dropWhile isJsWs).reverse.dropWhile isJsWs).reverse

/-- The header pattern `點位名稱` filtered by the parser. -/
def headerTok : List Char := ("點位名稱").data

/-- Lines surviving the header filter of src/unnamed/part_000, line 59:
`text.trim().split('\n').filter(line => !line.includes('點位名稱') &&
!line.includes('X'))`. -/
def keptLines (text : String) : List (List Char) :=
  (splitNLAux [] (trimList text.data)).filter
    (fun line => !containsSub line headerTok && !containsSub line [('X')])

/-- An extracted coordinate pair `{x, y}`. -/
structure RawPair where
  x : JsNum
  y : JsNum
deriving DecidableEq

/-- Tokens of a line: `line.split(/[,\t\s]+/).map(p => p.trim())`. -/
def lineTokens (line : List Char) : List (List Char) :=
  (sra [] line).map trimList

/-- The token `parts[parts.length - 2]`; JavaScript indexing yields
`undefined` (hence `parseFloat` gives `NaN`) when fewer than two tokens
exist. -/
def sndLastTok (parts : List (List Char)) : Option (List Char) :=
  if parts.length < 2 then none else parts.get? (parts.length - 2)

/-- Apply `parseFloat` to a possibly-`undefined` token. -/
def pfOpt : Option (List Char) → JsNum
  | none => .nan
  | some t => parseFloatJs t

/-- Loop body of `parseCoordinates`: for each line take the last two tokens,
parse them, and push the pair when `!isNaN(x) && !isNaN(y) && x > 100000 &&
y > 1000000`. -/
def parseLoop : List (List Char) → List RawPair → List RawPair
  | [], acc => acc
  | line :: rest, acc =>
    let parts := lineTokens line
    let y := pfOpt parts.getLast?
    let x := pfOpt (sndLastTok parts)
    if !x.isNaN && !y.isNaN && x.gtQ 100000 && y.gtQ 1000000 then
      parseLoop rest (acc ++ [⟨x, y⟩])
    else
      parseLoop rest acc

/-- Embedding of `parseCoordinates` from src/unnamed/part_000, lines 57–75. -/
def parseCoordinates (text : String) : List RawPair :=
  parseLoop (keptLines text) []

/-- Specification-side acceptance rule, written after C3's wording: for each
surviving line, in input order, the pair is taken from the last two tokens
(`x` second-to-last, `y` last) and included exactly when both values parse
as numbers other than `NaN` and `x > 100000` and `y > 1000000`. -/
def acceptedPair (line : List Char) : Option RawPair :=
  let parts := lineTokens line
  let x := pfOpt (sndLastTok parts)
  let y := pfOpt parts.getLast?
  if x.isNaN = false ∧ y.isNaN = false ∧ x.gtQ 100000 = true ∧ y.gtQ 1000000 = true then
    some ⟨x, y⟩
  else none

/-- Specification-side parser: the accepted pairs of the surviving lines in
input order. -/
def parseSpec (text : String) : List RawPair :=
  (keptLines text).filterMap acceptedPair

/-! ### The batch orchestrator (src/unnamed/part_001, lines 55–99)

`CoordinateData` is embedded from the `CoordinateData` interface of
src/types.ts (the orchestrator's `../types` import): `id`, `originalX`,
`originalY`, `lat`, `lng`, nullable `township`, and the four-valued
`status` union.  The valid-township vocabulary `CHANGHUA_TOWNSHIPS`
(the `../constants` module, which is not under src/) is modelled from the
spec as an arbitrary fixed list of names, passed as a parameter `voc`. -/

/-- The `status` union of src/types.ts:
`'pending' | 'processing' | 'completed' | 'error'`. -/
inductive Status where
  | pending
  | processing
  | completed
  | error
deriving DecidableEq

/-- Embedding of the `CoordinateData` interface of src/types.ts — numbers
as `ℚ`, `township: string | null` as `Option String`, the status string
union as `Status`. -/
structure CoordinateData where
  id : ℕ
  originalX : ℚ
  originalY : ℚ
  lat : ℚ
  lng : ℚ
  township : Option String
  status : Status
deriving DecidableEq

/-- One `{id, township}` entry of a classification response. -/
structure IdentEntry where
  id : ℕ
  township : String
deriving DecidableEq

/-- Observable events of a run: each `onProgress(processedCount, snapshot)`
invocation, each `delay(ms)`, and each client call with its batch. -/
inductive Event where
  | progress (processedCount : ℕ) (snapshot : List CoordinateData)
  | delay (ms : ℕ)
  | clientCall (i : ℕ) (batch : List CoordinateData)
deriving DecidableEq

/-- The chunk size constant of src/unnamed/part_001, line 5. -/
def BATCH_SIZE : ℕ := 5

/-- In-place field update of the element at position `n`. -/
def updateAt : List α → ℕ → (α → α) → List α
  | [], _, _ => []
  | a :: l, 0, f => f a :: l
  | a :: l, n + 1, f => a :: updateAt l n f

/-- Index search helper with a running start index. -/
def findIdxAux (p : α → Bool) : List α → ℕ → Option ℕ
  | [], _ => none
  | a :: l, i => if p a then some i else findIdxAux p l (i + 1)

/-- `resultData.findIndex(r => r.id === wanted)`; `none` models `-1`. -/
def findIdxById (l : List CoordinateData) (wanted : ℕ) : Option ℕ :=
  findIdxAux (fun r => r.id == wanted) l 0

/-- Shared shape of the three `batch.forEach` loops: for each batch item,
look up the item's id in the result list and update the found record with
`F item`; a missed lookup (`findIndex === -1`) leaves the list unchanged. -/
def chunkWrite (F : CoordinateData → CoordinateData → CoordinateData)
    (d : List CoordinateData) (batch : List CoordinateData) : List CoordinateData :=
  batch.foldl (fun d item =>
    match findIdxById d item.id with
    | some idx => updateAt d idx (F item)
    | none => d) d

/-- Lines 65–68: mark every batch record `processing`. -/
def markProcessing (d batch : List CoordinateData) : List CoordinateData :=
  chunkWrite (fun _ r => { r with status := .processing }) d batch

/-- Lines 76–88: match each batch item against the response by id and write
`completed` with the township when the first id-matching entry has a truthy
township contained in the vocabulary, `error` otherwise. -/
def applyIdents (voc : List String) (d batch : List CoordinateData)
    (idents : List IdentEntry) : List CoordinateData :=
  chunkWrite (fun item r =>
    match idents.find? (fun ident => ident.id == item.id) with
    | some m =>
      if m.township ≠ ("") ∧ m.township ∈ voc then
        { r with township := some m.township, status := .completed }
      else { r with status := .error }
    | none => { r with status := .error }) d batch

/-- Lines 89–94 (the `catch` block): mark every batch record `error`. -/
def markErrorChunk (d batch : List CoordinateData) : List CoordinateData :=
  chunkWrite (fun _ r => { r with status := .error }) d batch

/-- Fuel-indexed loop of `processCoordinates`: the guard `i < d.length`,
the slice `d.slice(i, i + BATCH_SIZE)`, the processing marks, the first
`onProgress`, the conditional `delay(1000)`, the client call on the current
(mutated) batch objects, the resolution or the `catch`, the processed-count
advance, and the second `onProgress`. -/
def processGo (voc : List String)
    (client : ℕ → List CoordinateData → Option (List IdentEntry)) :
    ℕ → List CoordinateData → ℕ → ℕ → List CoordinateData × List Event
  | 0, d, _, _ => (d, [])
  | fuel + 1, d, i, cnt =>
    if i < d.length then
      let batch := (d.drop i).take BATCH_SIZE
      let d1 := markProcessing d batch
      let batchNow := (d1.drop i).take BATCH_SIZE
      let cnt2 := cnt + batch.length
      let d2 :=
        match client i batchNow with
        | some idents => applyIdents voc d1 batch idents
        | none => markErrorChunk d1 batch
      let rest := processGo voc client fuel d2 (i + BATCH_SIZE) cnt2
      (rest.1,
        Event.progress cnt d1 ::
          ((if 0 < i then [Event.delay 1000] else []) ++
            Event.clientCall i batchNow :: Event.progress cnt2 d2 :: rest.2))
    else (d, [])

/-- Embedding of `processCoordinates` from src/unnamed/part_001, lines
55–99: returns the final record list together with the event trace. -/
def processCoordinates (voc : List String)
    (client : ℕ → List CoordinateData → Option (List IdentEntry))
    (allData : List CoordinateData) : List CoordinateData × List Event :=
  processGo voc client allData.length allData 0 0

/-! ### Specification-side description of a run

With pairwise-distinct ids every lookup hits the record's own position, and
the run has a closed form: record `j` is resolved exactly once, by chunk
`j / BATCH_SIZE`, from the client's response to that chunk alone. -/

/-- Map with the element's position, starting at `s`. -/
def mapWithIndex (f : ℕ → α → α) : ℕ → List α → List α
  | _, [] => []
  | s, a :: l => f s a :: mapWithIndex f (s + 1) l

/-- A record marked `processing`. -/
def procMark (r : CoordinateData) : CoordinateData := { r with status := .processing }

/-- Outcome of one record under a chunk response: a failed call (`none`)
gives `error`; otherwise the first id-matching entry decides `completed`
(truthy township in the vocabulary, which is then written) or `error`. -/
def outcomeRec (voc : List String) (resp : Option (List IdentEntry))
    (r : CoordinateData) : CoordinateData :=
  match resp with
  | none => { r with status := .error }
  | some idents =>
    match idents.find? (fun ident => ident.id == r.id) with
    | some m =>
      if m.township ≠ ("") ∧ m.township ∈ voc then
        { r with township := some m.township, status := .completed }
      else { r with status := .error }
    | none => { r with status := .error }

/-- The batch submitted for chunk `k`: the records of positions
`[BATCH_SIZE * k, BATCH_SIZE * k + BATCH_SIZE)` marked `processing`. -/
def batchSpec (data : List CoordinateData) (k : ℕ) : List CoordinateData :=
  ((data.drop (BATCH_SIZE * k)).take BATCH_SIZE).map procMark

/-- The client's response for chunk `k`. -/
def respAt (client : ℕ → List CoordinateData → Option (List IdentEntry))
    (data : List CoordinateData) (k : ℕ) : Option (List IdentEntry) :=
  client (BATCH_SIZE * k) (batchSpec data k)

/-- State after the first `K` chunks are resolved. -/
def resolvedUpTo (voc : List String)
    (client : ℕ → List CoordinateData → Option (List IdentEntry))
    (data : List CoordinateData) (K : ℕ) : List CoordinateData :=
  mapWithIndex (fun j r =>
    if j / BATCH_SIZE < K then outcomeRec voc (respAt client data (j / BATCH_SIZE)) r
    else r) 0 data

/-- Snapshot passed to the first `onProgress` of chunk `k`: earlier chunks
resolved, chunk `k` marked `processing`, later chunks untouched. -/
def snapHalf (voc : List String)
    (client : ℕ → List CoordinateData → Option (List IdentEntry))
    (data : List CoordinateData) (k : ℕ) : List CoordinateData :=
  mapWithIndex (fun j r =>
    if j / BATCH_SIZE < k then outcomeRec voc (respAt client data (j / BATCH_SIZE)) r
    else if j / BATCH_SIZE = k then procMark r
    else r) 0 data

/-- Number of chunks of a run over `n` records. -/
def chunkCount (n : ℕ) : ℕ := (n + BATCH_SIZE - 1) / BATCH_SIZE

/-- Event block of chunk `k` in the closed-form trace. -/
def blockEvents (voc : List String)
    (client : ℕ → List CoordinateData → Option (List IdentEntry))
    (data : List CoordinateData) (k : ℕ) : List Event :=
  Event.progress (min (BATCH_SIZE * k) data.length) (snapHalf voc client data k) ::
    ((if 0 < k then [Event.delay 1000] else []) ++
      Event.clientCall (BATCH_SIZE * k) (batchSpec data k) ::
        [Event.progress (min (BATCH_SIZE * k + BATCH_SIZE) data.length)
          (resolvedUpTo voc client data (k + 1))])

/-- Trace skeleton events: the trace with snapshots and batches stripped. -/
inductive PEv where
  | prog (processedCount : ℕ)
  | del (ms : ℕ)
  | call (i : ℕ)
deriving DecidableEq

/-- Projection of an event to its skeleton. -/
def projEv : Event → PEv
  | .progress c _ => .prog c
  | .delay ms => .del ms
  | .clientCall i _ => .call i

/-- The five frame fields of C7: everything except township and status. -/
def projFrame (r : CoordinateData) : ℕ × ℚ × ℚ × ℚ × ℚ :=
  (r.id, r.originalX, r.originalY, r.lat, r.lng)

/-- Skeleton of the loop: processed counts, delays and call indices, driven
only by the record-list length. -/
def skelGo : ℕ → ℕ → ℕ → ℕ → List PEv
  | 0, _, _, _ => []
  | fuel + 1, n, i, cnt =>
    if i < n then
      let b := min BATCH_SIZE (n - i)
      PEv.prog cnt ::
        ((if 0 < i then [PEv.del 1000] else []) ++
          PEv.call i :: PEv.prog (cnt + b) :: skelGo fuel n (i + BATCH_SIZE) (cnt + b))
    else []

/-- The processed count of a `progress` event. -/
def progCount? : Event → Option ℕ
  | .progress c _ => some c
  | _ => none

/-- The snapshot of a `progress` event. -/
def progSnap? : Event → Option (List CoordinateData)
  | .progress _ s => some s
  | _ => none

/-- Skeleton filter keeping progress counts and call indices. -/
def pcProj? : PEv → Option PEv
  | .del _ => none
  | e => some e

/-- Skeleton filter keeping delays and call indices. -/
def dcProj? : PEv → Option PEv
  | .prog _ => none
  | e => some e

/-- Forward moves of the status lifecycle
`pending → processing → (completed | error)`. -/
def stepOk (s t : Status) : Prop :=
  s = t ∨ (s = .pending ∧ t = .processing) ∨
    (s = .processing ∧ (t = .completed ∨ t = .error))

/-- Status of an optional record (`pending` is never used: callers index
within bounds). -/
def statusOf (o : Option CoordinateData) : Status :=
  (o.map (·.status)).getD .pending

/-- Township field of an optional record. -/
def twOf (o : Option CoordinateData) : Option String :=
  (o.map (·.township)).getD none

/-- The snapshots passed to `onProgress`, in order. -/
def progressSnapshots (evs : List Event) : List (List CoordinateData) :=
  evs.filterMap progSnap?

/-- The status of record position `j` across the `onProgress` snapshots. -/
def statusTrail (evs : List Event) (j : ℕ) : List Status :=
  (progressSnapshots evs).map (fun s => statusOf s[j]?)

/-- The township field of record position `j` across the `onProgress`
snapshots. -/
def townshipTrail (evs : List Event) (j : ℕ) : List (Option String) :=
  (progressSnapshots evs).map (fun s => twOf s[j]?)

/-- Closed-form skeleton block of chunk `k` over `n` records. -/
def skelBlock (n k : ℕ) : List PEv :=
  PEv.prog (min (BATCH_SIZE * k) n) ::
    ((if 0 < k then [PEv.del 1000] else []) ++
      [PEv.call (BATCH_SIZE * k), PEv.prog (min (BATCH_SIZE * k + BATCH_SIZE) n)])

/-- The processed count of a skeleton progress entry. -/
def progOfPEv : PEv → Option ℕ
  | .prog c => some c
  | _ => none

/-- The start index of a skeleton call entry. -/
def callOfPEv : PEv → Option ℕ
  | .call i => some i
  | _ => none

/-! ### Infrastructure lemmas -/

theorem fl_zero : fl 0 = 0 := by
  simp [fl]

theorem length_updateAt (l : List α) (n : ℕ) (f : α → α) :
    (updateAt l n f).length = l.length := by
  induction l generalizing n with
  | nil => rfl
  | cons a t ih =>
    cases n with
    | zero => rfl
    | succ m => simpa [updateAt] using ih m

theorem getElem?_updateAt (l : List α) (n : ℕ) (f : α → α) (m : ℕ) :
    (updateAt l n f)[m]? = if m = n then (l[n]?).map f else l[m]? := by
  induction l generalizing n m with
  | nil => simp [updateAt]
  | cons a t ih =>
    cases n with
    | zero =>
      cases m with
      | zero => simp [updateAt]
      | succ m' => simp [updateAt]
    | succ n' =>
      cases m with
      | zero => simp [updateAt]
      | succ m' => simpa [updateAt] using ih n' m'

theorem map_updateAt_of {g : α → β} {f : α → α} (h : ∀ a, g (f a) = g a)
    (l : List α) (n : ℕ) : (updateAt l n f).map g = l.map g := by
  induction l generalizing n with
  | nil => rfl
  | cons a t ih =>
    cases n with
    | zero => simp [updateAt, h]
    | succ m => simpa [updateAt] using ih m

theorem findIdxAux_eq (p : α → Bool) (l : List α) (j s : ℕ) (a : α)
    (hj : l[j]? = some a) (hp : p a = true)
    (hbefore : ∀ m b, m < j → l[m]? = some b → p b = false) :
    findIdxAux p l s = some (s + j) := by
  induction l generalizing j s with
  | nil => simp at hj
  | cons x t ih =>
    cases j with
    | zero =>
      simp at hj
      subst hj
      simp [findIdxAux, hp]
    | succ j' =>
      have hx : p x = false := hbefore 0 x (Nat.succ_pos _) List.getElem?_cons_zero
      simp only [findIdxAux, hx]
      simp only [Bool.false_eq_true, if_false]
      have := ih j' (s + 1) (by simpa using hj)
        (fun m b hm hb => hbefore (m + 1) b (by omega) (by simpa using hb))
      rw [this]
      congr 1
      omega

theorem findIdxById_of_nodup (l : List CoordinateData) (j : ℕ) (r : CoordinateData)
    (hnd : (l.map (·.id)).Nodup) (hj : l[j]? = some r) :
    findIdxById l r.id = some j := by
  have hjlen : j < l.length := by
    by_contra hge
    rw [List.getElem?_eq_none (by omega)] at hj
    exact Option.noConfusion hj
  have key := List.nodup_iff_getElem?_ne_getElem?.mp hnd
  have h0 : findIdxAux (fun x => x.id == r.id) l 0 = some (0 + j) := by
    apply findIdxAux_eq _ _ _ _ _ hj (by simp)
    intro m b hm hb
    simp only [beq_eq_false_iff_ne, ne_eq]
    intro hid
    have hmap : (l.map (·.id))[m]? = some b.id := by
      rw [List.getElem?_map, hb]; rfl
    have hmap' : (l.map (·.id))[j]? = some r.id := by
      rw [List.getElem?_map, hj]; rfl
    exact key m j hm (by simpa using hjlen) (by rw [hmap, hmap', hid])
  simpa [findIdxById] using h0

theorem length_mapWithIndex (f : ℕ → α → α) (s : ℕ) (l : List α) :
    (mapWithIndex f s l).length = l.length := by
  induction l generalizing s with
  | nil => rfl
  | cons a t ih => simpa [mapWithIndex] using ih (s + 1)

theorem getElem?_mapWithIndex (f : ℕ → α → α) (s : ℕ) (l : List α) (j : ℕ) :
    (mapWithIndex f s l)[j]? = (l[j]?).map (f (s + j)) := by
  induction l generalizing s j with
  | nil => simp [mapWithIndex]
  | cons a t ih =>
    cases j with
    | zero => simp [mapWithIndex]
    | succ j' =>
      have := ih (s + 1) j'
      simpa [mapWithIndex, Nat.add_assoc, Nat.add_comm 1 j'] using this

theorem map_mapWithIndex_of {g : α → β} {f : ℕ → α → α}
    (h : ∀ i a, g (f i a) = g a) (s : ℕ) (l : List α) :
    (mapWithIndex f s l).map g = l.map g := by
  induction l generalizing s with
  | nil => rfl
  | cons a t ih => simp [mapWithIndex, h, ih (s + 1)]

theorem chunkWrite_map_of {g : CoordinateData → β}
    {F : CoordinateData → CoordinateData → CoordinateData}
    (h : ∀ item r, g (F item r) = g r) (d batch : List CoordinateData) :
    (chunkWrite F d batch).map g = d.map g := by
  induction batch generalizing d with
  | nil => rfl
  | cons x rest ih =>
    simp only [chunkWrite, List.foldl_cons] at ih ⊢
    rw [ih]
    cases findIdxById d x.id with
    | none => rfl
    | some idx => exact map_updateAt_of (fun r => h x r) d idx

theorem chunkWrite_length {F : CoordinateData → CoordinateData → CoordinateData}
    (d batch : List CoordinateData) : (chunkWrite F d batch).length = d.length := by
  have h := @chunkWrite_map_of Unit (fun _ => ()) F (fun _ _ => rfl) d batch
  calc (chunkWrite F d batch).length
      = ((chunkWrite F d batch).map (fun _ => ())).length := (List.length_map _ _).symm
    _ = (d.map (fun _ => ())).length := by rw [h]
    _ = d.length := List.length_map _ _

theorem chunkWrite_step (F : CoordinateData → CoordinateData → CoordinateData)
    (d : List CoordinateData) (x : CoordinateData) (rest : List CoordinateData) :
    chunkWrite F d (x :: rest) =
      chunkWrite F
        ((match findIdxById d x.id with
          | some idx => updateAt d idx (F x)
          | none => d) : List CoordinateData) rest := by
  simp only [chunkWrite, List.foldl_cons]

theorem chunkWrite_slice_out
    {F : CoordinateData → CoordinateData → CoordinateData}
    (hFid : ∀ item r, (F item r).id = r.id)
    (d0 : List CoordinateData) (b : ℕ) :
    ∀ (d : List CoordinateData) (i j : ℕ),
      d.map (·.id) = d0.map (·.id) → (d0.map (·.id)).Nodup →
      (j < i ∨ i + b ≤ j) →
      (chunkWrite F d ((d0.drop i).take b))[j]? = d[j]? := by
  induction b with
  | zero =>
    intro d i j _ _ _
    simp [chunkWrite]
  | succ b ih =>
    intro d i j hids hnd hj
    by_cases hi : i < d0.length
    · rw [List.drop_eq_getElem_cons hi, List.take_succ_cons, chunkWrite_step]
      have hlen : d.length = d0.length := by
        have := congrArg List.length hids
        simpa using this
      rcases hri : d[i]? with _ | ri
      · exfalso
        have := List.getElem?_eq_none_iff.mp hri
        omega
      have hriid : ri.id = d0[i].id := by
        have h1 : (d.map (·.id))[i]? = (d0.map (·.id))[i]? := by rw [hids]
        rw [List.getElem?_map, List.getElem?_map, hri,
          List.getElem?_eq_some_iff.mpr ⟨hi, rfl⟩] at h1
        simpa using h1
      have hnd' : (d.map (·.id)).Nodup := by rw [hids]; exact hnd
      have hfind : findIdxById d (d0[i].id) = some i := by
        rw [← hriid]
        exact findIdxById_of_nodup d i ri hnd' hri
      rw [hfind]
      have hids2 : (updateAt d i (F d0[i])).map (·.id) = d0.map (·.id) := by
        rw [map_updateAt_of (fun r => hFid d0[i] r) d i, hids]
      rw [ih (updateAt d i (F d0[i])) (i + 1) j hids2 hnd (by omega),
        getElem?_updateAt, if_neg (by omega)]
    · rw [List.drop_eq_nil_of_le (by omega)]
      simp [chunkWrite]

theorem chunkWrite_slice_in
    {F : CoordinateData → CoordinateData → CoordinateData}
    (hFid : ∀ item r, (F item r).id = r.id)
    (d0 : List CoordinateData) (b : ℕ) :
    ∀ (d : List CoordinateData) (i j : ℕ) (item : CoordinateData),
      d.map (·.id) = d0.map (·.id) → (d0.map (·.id)).Nodup →
      i ≤ j → j < i + b → d0[j]? = some item →
      (chunkWrite F d ((d0.drop i).take b))[j]? = (d[j]?).map (F item) := by
  induction b with
  | zero =>
    intro d i j item _ _ _ _ _
    omega
  | succ b ih =>
    intro d i j item hids hnd hij hjb hitem
    have hjn : j < d0.length := by
      rcases List.getElem?_eq_some_iff.mp hitem with ⟨h, _⟩
      exact h
    have hi : i < d0.length := by omega
    rw [List.drop_eq_getElem_cons hi, List.take_succ_cons, chunkWrite_step]
    have hlen : d.length = d0.length := by
      have := congrArg List.length hids
      simpa using this
    rcases hri : d[i]? with _ | ri
    · exfalso
      have := List.getElem?_eq_none_iff.mp hri
      omega
    have hriid : ri.id = d0[i].id := by
      have h1 : (d.map (·.id))[i]? = (d0.map (·.id))[i]? := by rw [hids]
      rw [List.getElem?_map, List.getElem?_map, hri,
        List.getElem?_eq_some_iff.mpr ⟨hi, rfl⟩] at h1
      simpa using h1
    have hnd' : (d.map (·.id)).Nodup := by rw [hids]; exact hnd
    have hfind : findIdxById d (d0[i].id) = some i := by
      rw [← hriid]
      exact findIdxById_of_nodup d i ri hnd' hri
    rw [hfind]
    have hids2 : (updateAt d i (F d0[i])).map (·.id) = d0.map (·.id) := by
      rw [map_updateAt_of (fun r => hFid d0[i] r) d i, hids]
    rcases Nat.eq_or_lt_of_le hij with hji | hji
    · subst hji
      have hitem' : item = d0[i] := by
        rcases List.getElem?_eq_some_iff.mp hitem with ⟨h, heq⟩
        exact heq.symm
      rw [chunkWrite_slice_out hFid d0 b (updateAt d i (F d0[i])) (i + 1) i hids2 hnd
        (Or.inl (by omega)),
        getElem?_updateAt, if_pos rfl, hri, hitem']
    · rw [ih (updateAt d i (F d0[i])) (i + 1) j item hids2 hnd (by omega) (by omega) hitem,
        getElem?_updateAt, if_neg (by omega)]

theorem procMark_id (r : CoordinateData) : (procMark r).id = r.id := rfl

theorem outcomeRec_id (voc : List String) (resp : Option (List IdentEntry))
    (r : CoordinateData) : (outcomeRec voc resp r).id = r.id := by
  cases resp with
  | none => rfl
  | some idents =>
    rcases hf : List.find? (fun ident => ident.id == r.id) idents with _ | m
    · simp [outcomeRec, hf]
    · by_cases h : m.township ≠ ("") ∧ m.township ∈ voc
      · simp [outcomeRec, hf, h]
      · simp [outcomeRec, hf, h]

theorem outcomeRec_status (voc : List String) (resp : Option (List IdentEntry))
    (r : CoordinateData) :
    (outcomeRec voc resp r).status = Status.completed ∨
      (outcomeRec voc resp r).status = Status.error := by
  cases resp with
  | none => exact Or.inr rfl
  | some idents =>
    rcases hf : List.find? (fun ident => ident.id == r.id) idents with _ | m
    · simp [outcomeRec, hf]
    · by_cases h : m.township ≠ ("") ∧ m.township ∈ voc
      · simp [outcomeRec, hf, h]
      · simp [outcomeRec, hf, h]

theorem getElem?_resolvedUpTo (voc : List String)
    (client : ℕ → List CoordinateData → Option (List IdentEntry))
    (data : List CoordinateData) (K j : ℕ) :
    (resolvedUpTo voc client data K)[j]? =
      (data[j]?).map (fun r =>
        if j / BATCH_SIZE < K then outcomeRec voc (respAt client data (j / BATCH_SIZE)) r
        else r) := by
  have := getElem?_mapWithIndex (fun j r =>
    if j / BATCH_SIZE < K then outcomeRec voc (respAt client data (j / BATCH_SIZE)) r
    else r) 0 data j
  simpa [resolvedUpTo] using this

theorem getElem?_snapHalf (voc : List String)
    (client : ℕ → List CoordinateData → Option (List IdentEntry))
    (data : List CoordinateData) (k j : ℕ) :
    (snapHalf voc client data k)[j]? =
      (data[j]?).map (fun r =>
        if j / BATCH_SIZE < k then outcomeRec voc (respAt client data (j / BATCH_SIZE)) r
        else if j / BATCH_SIZE = k then procMark r
        else r) := by
  have := getElem?_mapWithIndex (fun j r =>
    if j / BATCH_SIZE < k then outcomeRec voc (respAt client data (j / BATCH_SIZE)) r
    else if j / BATCH_SIZE = k then procMark r
    else r) 0 data j
  simpa [snapHalf] using this

theorem ids_resolvedUpTo (voc : List String)
    (client : ℕ → List CoordinateData → Option (List IdentEntry))
    (data : List CoordinateData) (K : ℕ) :
    (resolvedUpTo voc client data K).map (·.id) = data.map (·.id) := by
  apply map_mapWithIndex_of
  intro i r
  by_cases h : i / BATCH_SIZE < K
  · rw [if_pos h]; exact outcomeRec_id _ _ _
  · rw [if_neg h]

theorem ids_snapHalf (voc : List String)
    (client : ℕ → List CoordinateData → Option (List IdentEntry))
    (data : List CoordinateData) (k : ℕ) :
    (snapHalf voc client data k).map (·.id) = data.map (·.id) := by
  apply map_mapWithIndex_of
  intro i r
  by_cases h : i / BATCH_SIZE < k
  · rw [if_pos h]; exact outcomeRec_id _ _ _
  · rw [if_neg h]
    by_cases h2 : i / BATCH_SIZE = k
    · rw [if_pos h2]; rfl
    · rw [if_neg h2]

theorem length_resolvedUpTo (voc : List String)
    (client : ℕ → List CoordinateData → Option (List IdentEntry))
    (data : List CoordinateData) (K : ℕ) :
    (resolvedUpTo voc client data K).length = data.length :=
  length_mapWithIndex _ _ _

theorem length_snapHalf (voc : List String)
    (client : ℕ → List CoordinateData → Option (List IdentEntry))
    (data : List CoordinateData) (k : ℕ) :
    (snapHalf voc client data k).length = data.length :=
  length_mapWithIndex _ _ _

theorem resolvedUpTo_zero (voc : List String)
    (client : ℕ → List CoordinateData → Option (List IdentEntry))
    (data : List CoordinateData) :
    resolvedUpTo voc client data 0 = data := by
  apply List.ext_get?
  intro n
  rw [List.get?_eq_getElem?, List.get?_eq_getElem?, getElem?_resolvedUpTo]
  simp

theorem resolvedUpTo_congr_ge (voc : List String)
    (client : ℕ → List CoordinateData → Option (List IdentEntry))
    (data : List CoordinateData) (K : ℕ) (hK : chunkCount data.length ≤ K) :
    resolvedUpTo voc client data K = resolvedUpTo voc client data (chunkCount data.length) := by
  apply List.ext_get?
  intro j
  rw [List.get?_eq_getElem?, List.get?_eq_getElem?, getElem?_resolvedUpTo, getElem?_resolvedUpTo]
  rcases hj : data[j]? with _ | r
  · rfl
  have hjn : j < data.length := by
    rcases List.getElem?_eq_some_iff.mp hj with ⟨h, _⟩
    exact h
  have hlt : j / BATCH_SIZE < chunkCount data.length := by
    simp only [BATCH_SIZE, chunkCount] at *
    omega
  rw [Option.map_some', Option.map_some', if_pos (lt_of_lt_of_le hlt hK), if_pos hlt]

theorem div_batch_eq (k t : ℕ) (ht : t < BATCH_SIZE) :
    (BATCH_SIZE * k + t) / BATCH_SIZE = k := by
  simp only [BATCH_SIZE] at *
  omega

theorem resolved_slice (voc : List String)
    (client : ℕ → List CoordinateData → Option (List IdentEntry))
    (data : List CoordinateData) (k : ℕ) :
    ((resolvedUpTo voc client data k).drop (BATCH_SIZE * k)).take BATCH_SIZE =
      (data.drop (BATCH_SIZE * k)).take BATCH_SIZE := by
  apply List.ext_get?
  intro t
  rw [List.get?_eq_getElem?, List.get?_eq_getElem?, List.getElem?_take, List.getElem?_take]
  by_cases ht : t < BATCH_SIZE
  · rw [if_pos ht, if_pos ht, List.getElem?_drop, List.getElem?_drop, getElem?_resolvedUpTo]
    have hdiv := div_batch_eq k t ht
    simp [hdiv]
  · rw [if_neg ht, if_neg ht]

theorem markProcessing_step (voc : List String)
    (client : ℕ → List CoordinateData → Option (List IdentEntry))
    (data : List CoordinateData) (k : ℕ)
    (hnd : (data.map (·.id)).Nodup) :
    markProcessing (resolvedUpTo voc client data k)
        ((data.drop (BATCH_SIZE * k)).take BATCH_SIZE)
      = snapHalf voc client data k := by
  have hFid : ∀ (item r : CoordinateData),
      ((fun (_ r : CoordinateData) => { r with status := Status.processing }) item r).id = r.id :=
    fun _ _ => rfl
  apply List.ext_get?
  intro j
  rw [List.get?_eq_getElem?, List.get?_eq_getElem?, getElem?_snapHalf]
  simp only [markProcessing]
  by_cases hseg : BATCH_SIZE * k ≤ j ∧ j < BATCH_SIZE * k + BATCH_SIZE
  · rcases hj : data[j]? with _ | item
    · have hn : data.length ≤ j := List.getElem?_eq_none_iff.mp hj
      rw [List.getElem?_eq_none (by
        rw [chunkWrite_length, length_resolvedUpTo]
        omega)]
      rfl
    · rw [chunkWrite_slice_in hFid data BATCH_SIZE (resolvedUpTo voc client data k)
        (BATCH_SIZE * k) j item (ids_resolvedUpTo voc client data k) hnd hseg.1 hseg.2 hj,
        getElem?_resolvedUpTo, hj]
      have hdiv : j / BATCH_SIZE = k := by
        obtain ⟨t, ht⟩ : ∃ t, j = BATCH_SIZE * k + t ∧ t < BATCH_SIZE := by
          exact ⟨j - BATCH_SIZE * k, by omega, by omega⟩
        rw [ht.1]
        exact div_batch_eq k _ ht.2
      rw [Option.map_some', Option.map_some', Option.map_some']
      rw [if_neg (by omega), if_neg (by omega), if_pos hdiv]
      rfl
  · rw [chunkWrite_slice_out hFid data BATCH_SIZE (resolvedUpTo voc client data k)
      (BATCH_SIZE * k) j (ids_resolvedUpTo voc client data k) hnd (by omega),
      getElem?_resolvedUpTo]
    rcases hj : data[j]? with _ | r
    · rfl
    have hjn : j < data.length := by
      rcases List.getElem?_eq_some_iff.mp hj with ⟨h, _⟩
      exact h
    rw [Option.map_some', Option.map_some']
    by_cases hlt : j / BATCH_SIZE < k
    · rw [if_pos hlt, if_pos hlt]
    · rw [if_neg hlt, if_neg hlt, if_neg (by
        intro heq
        have : BATCH_SIZE * k ≤ j ∧ j < BATCH_SIZE * k + BATCH_SIZE := by
          simp only [BATCH_SIZE] at *
          omega
        exact hseg this)]

theorem snapHalf_slice (voc : List String)
    (client : ℕ → List CoordinateData → Option (List IdentEntry))
    (data : List CoordinateData) (k : ℕ) :
    ((snapHalf voc client data k).drop (BATCH_SIZE * k)).take BATCH_SIZE =
      batchSpec data k := by
  apply List.ext_get?
  intro t
  rw [List.get?_eq_getElem?, List.get?_eq_getElem?]
  simp only [batchSpec, List.getElem?_map]
  rw [List.getElem?_take, List.getElem?_take]
  by_cases ht : t < BATCH_SIZE
  · rw [if_pos ht, if_pos ht, List.getElem?_drop, List.getElem?_drop, getElem?_snapHalf]
    have hdiv := div_batch_eq k t ht
    simp [hdiv, procMark]
    rfl
  · rw [if_neg ht, if_neg ht]
    rfl

theorem chunk_resolve_step (voc : List String)
    (client : ℕ → List CoordinateData → Option (List IdentEntry))
    (data : List CoordinateData) (k : ℕ)
    (hnd : (data.map (·.id)).Nodup)
    (F : CoordinateData → CoordinateData → CoordinateData)
    (hFid : ∀ item r, (F item r).id = r.id)
    (hF : ∀ item, F item (procMark item) = outcomeRec voc (respAt client data k) item) :
    chunkWrite F (snapHalf voc client data k)
        ((data.drop (BATCH_SIZE * k)).take BATCH_SIZE)
      = resolvedUpTo voc client data (k + 1) := by
  apply List.ext_get?
  intro j
  rw [List.get?_eq_getElem?, List.get?_eq_getElem?, getElem?_resolvedUpTo]
  by_cases hseg : BATCH_SIZE * k ≤ j ∧ j < BATCH_SIZE * k + BATCH_SIZE
  · have hdiv : j / BATCH_SIZE = k := by
      obtain ⟨t, ht⟩ : ∃ t, j = BATCH_SIZE * k + t ∧ t < BATCH_SIZE :=
        ⟨j - BATCH_SIZE * k, by omega, by omega⟩
      rw [ht.1]
      exact div_batch_eq k _ ht.2
    rcases hj : data[j]? with _ | item
    · have hn : data.length ≤ j := List.getElem?_eq_none_iff.mp hj
      rw [List.getElem?_eq_none (by
        rw [chunkWrite_length, length_snapHalf]
        omega)]
      rfl
    · rw [chunkWrite_slice_in hFid data BATCH_SIZE (snapHalf voc client data k)
        (BATCH_SIZE * k) j item (ids_snapHalf voc client data k) hnd hseg.1 hseg.2 hj,
        getElem?_snapHalf, hj]
      rw [Option.map_some', Option.map_some', Option.map_some']
      rw [if_neg (by omega), if_pos hdiv, hF item, hdiv, if_pos (by omega)]
  · rw [chunkWrite_slice_out hFid data BATCH_SIZE (snapHalf voc client data k)
      (BATCH_SIZE * k) j (ids_snapHalf voc client data k) hnd (by omega),
      getElem?_snapHalf]
    rcases hj : data[j]? with _ | r
    · rfl
    have hjn : j < data.length := by
      rcases List.getElem?_eq_some_iff.mp hj with ⟨h, _⟩
      exact h
    have hne : j / BATCH_SIZE ≠ k := by
      intro heq
      apply hseg
      constructor
      · simp only [BATCH_SIZE] at *
        omega
      · simp only [BATCH_SIZE] at *
        omega
    rw [Option.map_some', Option.map_some']
    by_cases hlt : j / BATCH_SIZE < k
    · rw [if_pos hlt, if_pos (by omega)]
    · rw [if_neg hlt, if_neg hne, if_neg (by omega)]

theorem applyF_id (voc : List String) (idents : List IdentEntry)
    (item r : CoordinateData) :
    ((fun (item r : CoordinateData) =>
      match idents.find? (fun (ident : IdentEntry) => ident.id == item.id) with
      | some m =>
        if m.township ≠ ("") ∧ m.township ∈ voc then
          { r with township := some m.township, status := Status.completed }
        else { r with status := Status.error }
      | none => { r with status := Status.error }) item r).id = r.id := by
  rcases hf : idents.find? (fun ident => ident.id == item.id) with _ | m
  · simp [hf]
  · by_cases h : m.township ≠ ("") ∧ m.township ∈ voc
    · simp [hf, h]
    · simp [hf, h]

theorem applyF_procMark (voc : List String) (idents : List IdentEntry)
    (item : CoordinateData) :
    ((fun (item r : CoordinateData) =>
      match idents.find? (fun (ident : IdentEntry) => ident.id == item.id) with
      | some m =>
        if m.township ≠ ("") ∧ m.township ∈ voc then
          { r with township := some m.township, status := Status.completed }
        else { r with status := Status.error }
      | none => { r with status := Status.error }) item (procMark item))
      = outcomeRec voc (some idents) item := by
  rcases hf : idents.find? (fun ident => ident.id == item.id) with _ | m
  · simp [outcomeRec, procMark, hf]
  · by_cases h : m.township ≠ ("") ∧ m.township ∈ voc
    · simp [outcomeRec, procMark, hf, h]
    · simp [outcomeRec, procMark, hf, h]

theorem processGo_master (voc : List String)
    (client : ℕ → List CoordinateData → Option (List IdentEntry))
    (data : List CoordinateData)
    (hnd : (data.map (·.id)).Nodup)
    (fuel k0 : ℕ) (hfuel : chunkCount data.length ≤ k0 + fuel) :
    processGo voc client fuel (resolvedUpTo voc client data k0) (BATCH_SIZE * k0)
        (min (BATCH_SIZE * k0) data.length)
      = (resolvedUpTo voc client data (chunkCount data.length),
         (List.range' k0 (chunkCount data.length - k0)).flatMap (blockEvents voc client data)) := by
  induction fuel generalizing k0 with
  | zero =>
    have hk : chunkCount data.length ≤ k0 := by omega
    rw [resolvedUpTo_congr_ge voc client data k0 hk]
    have h0 : chunkCount data.length - k0 = 0 := by omega
    rw [h0]
    rfl
  | succ fuel ih =>
    by_cases hin : BATCH_SIZE * k0 < data.length
    · have hguard : BATCH_SIZE * k0 < (resolvedUpTo voc client data k0).length := by
        rw [length_resolvedUpTo]
        exact hin
      have hk0C : k0 < chunkCount data.length := by
        simp only [BATCH_SIZE, chunkCount] at *
        omega
      rw [show processGo voc client (fuel + 1) (resolvedUpTo voc client data k0)
          (BATCH_SIZE * k0) (min (BATCH_SIZE * k0) data.length) =
        (let d := resolvedUpTo voc client data k0
         let i := BATCH_SIZE * k0
         let cnt := min (BATCH_SIZE * k0) data.length
         let batch := (d.drop i).take BATCH_SIZE
         let d1 := markProcessing d batch
         let batchNow := (d1.drop i).take BATCH_SIZE
         let cnt2 := cnt + batch.length
         let d2 :=
           match client i batchNow with
           | some idents => applyIdents voc d1 batch idents
           | none => markErrorChunk d1 batch
         let rest := processGo voc client fuel d2 (i + BATCH_SIZE) cnt2
         (rest.1,
           Event.progress cnt d1 ::
             ((if 0 < i then [Event.delay 1000] else []) ++
               Event.clientCall i batchNow :: Event.progress cnt2 d2 :: rest.2)))
        from by rw [processGo, if_pos hguard]]
      simp only []
      rw [resolved_slice voc client data k0, markProcessing_step voc client data k0 hnd,
        snapHalf_slice voc client data k0]
      have hlen : ((data.drop (BATCH_SIZE * k0)).take BATCH_SIZE).length =
          min BATCH_SIZE (data.length - BATCH_SIZE * k0) := by
        rw [List.length_take, List.length_drop]
      have hcnt2 : min (BATCH_SIZE * k0) data.length +
          ((data.drop (BATCH_SIZE * k0)).take BATCH_SIZE).length =
          min (BATCH_SIZE * k0 + BATCH_SIZE) data.length := by
        rw [hlen]
        simp only [BATCH_SIZE]
        omega
      rw [hcnt2]
      have hd2 : (match client (BATCH_SIZE * k0) (batchSpec data k0) with
          | some idents =>
            applyIdents voc (snapHalf voc client data k0)
              ((data.drop (BATCH_SIZE * k0)).take BATCH_SIZE) idents
          | none =>
            markErrorChunk (snapHalf voc client data k0)
              ((data.drop (BATCH_SIZE * k0)).take BATCH_SIZE))
          = resolvedUpTo voc client data (k0 + 1) := by
        rcases hresp : client (BATCH_SIZE * k0) (batchSpec data k0) with _ | idents
        · simp only [markErrorChunk]
          apply chunk_resolve_step voc client data k0 hnd
            (fun (_ r : CoordinateData) => { r with status := Status.error })
            (fun _ _ => rfl)
          intro item
          have : respAt client data k0 = none := hresp
          rw [this]
          rfl
        · simp only [applyIdents]
          apply chunk_resolve_step voc client data k0 hnd _ (applyF_id voc idents)
          intro item
          have h1 := applyF_procMark voc idents item
          have h2 : respAt client data k0 = some idents := hresp
          rw [h2]
          exact h1
      rw [hd2]
      have hnext : BATCH_SIZE * k0 + BATCH_SIZE = BATCH_SIZE * (k0 + 1) := by
        simp [Nat.mul_succ]
      rw [hnext, ih (k0 + 1) (by omega)]
      have hrange : List.range' k0 (chunkCount data.length - k0) =
          k0 :: List.range' (k0 + 1) (chunkCount data.length - (k0 + 1)) := by
        rw [show chunkCount data.length - k0 = (chunkCount data.length - (k0 + 1)) + 1 by omega]
        exact List.range'_succ k0 _ 1
      rw [hrange, List.flatMap_cons]
      simp only [blockEvents]
      have hif : (if 0 < BATCH_SIZE * k0 then [Event.delay 1000] else []) =
          (if 0 < k0 then [Event.delay 1000] else []) := by
        by_cases h : 0 < k0
        · rw [if_pos h, if_pos (by simp only [BATCH_SIZE]; omega)]
        · rw [if_neg h, if_neg (by simp only [BATCH_SIZE]; omega)]
      rw [hif]
      simp [List.cons_append, List.append_assoc]
      simp only [BATCH_SIZE]
      omega
    · have hguard : ¬ (BATCH_SIZE * k0 < (resolvedUpTo voc client data k0).length) := by
        rw [length_resolvedUpTo]
        exact hin
      rw [show processGo voc client (fuel + 1) (resolvedUpTo voc client data k0)
          (BATCH_SIZE * k0) (min (BATCH_SIZE * k0) data.length) =
        (resolvedUpTo voc client data k0, [])
        from by rw [processGo, if_neg hguard]]
      have hk : chunkCount data.length ≤ k0 := by
        simp only [chunkCount, BATCH_SIZE] at *
        omega
      rw [resolvedUpTo_congr_ge voc client data k0 hk]
      have h0 : chunkCount data.length - k0 = 0 := by omega
      rw [h0]
      rfl

theorem processCoordinates_master (voc : List String)
    (client : ℕ → List CoordinateData → Option (List IdentEntry))
    (data : List CoordinateData)
    (hnd : (data.map (·.id)).Nodup) :
    processCoordinates voc client data
      = (resolvedUpTo voc client data (chunkCount data.length),
         (List.range (chunkCount data.length)).flatMap (blockEvents voc client data)) := by
  rw [processCoordinates]
  have h := processGo_master voc client data hnd data.length 0
    (by simp only [chunkCount, BATCH_SIZE]; omega)
  rw [resolvedUpTo_zero] at h
  simp only [Nat.mul_zero, Nat.zero_min, Nat.sub_zero] at h
  rw [h, List.range_eq_range']

theorem processGo_skel (voc : List String)
    (client : ℕ → List CoordinateData → Option (List IdentEntry)) :
    ∀ (fuel : ℕ) (d : List CoordinateData) (i cnt : ℕ),
      (processGo voc client fuel d i cnt).2.map projEv = skelGo fuel d.length i cnt := by
  intro fuel
  induction fuel with
  | zero => intro d i cnt; rfl
  | succ fuel ih =>
    intro d i cnt
    by_cases h : i < d.length
    · simp only [processGo, skelGo, if_pos h]
      have hbl : ((d.drop i).take BATCH_SIZE).length = min BATCH_SIZE (d.length - i) := by
        rw [List.length_take, List.length_drop]
      rcases hresp : client i
          (((markProcessing d ((d.drop i).take BATCH_SIZE)).drop i).take BATCH_SIZE)
        with _ | idents
      · have hlen2 : (markErrorChunk (markProcessing d ((d.drop i).take BATCH_SIZE))
            ((d.drop i).take BATCH_SIZE)).length = d.length := by
          simp only [markErrorChunk, markProcessing]
          rw [chunkWrite_length, chunkWrite_length]
        simp only [List.map_cons, List.map_append, ih, hlen2, projEv, hbl]
        by_cases hi : 0 < i
        · simp [hi, projEv]
        · simp [hi, projEv]
      · have hlen2 : (applyIdents voc (markProcessing d ((d.drop i).take BATCH_SIZE))
            ((d.drop i).take BATCH_SIZE) idents).length = d.length := by
          simp only [applyIdents, markProcessing]
          rw [chunkWrite_length, chunkWrite_length]
        simp only [List.map_cons, List.map_append, ih, hlen2, projEv, hbl]
        by_cases hi : 0 < i
        · simp [hi, projEv]
        · simp [hi, projEv]
    · simp only [processGo, skelGo, if_neg h]
      rfl

theorem skelGo_closed (n : ℕ) :
    ∀ (fuel k0 : ℕ), chunkCount n ≤ k0 + fuel →
      skelGo fuel n (BATCH_SIZE * k0) (min (BATCH_SIZE * k0) n) =
        (List.range' k0 (chunkCount n - k0)).flatMap (skelBlock n) := by
  intro fuel
  induction fuel with
  | zero =>
    intro k0 hf
    rw [show chunkCount n - k0 = 0 by omega]
    rfl
  | succ fuel ih =>
    intro k0 hf
    by_cases h : BATCH_SIZE * k0 < n
    · simp only [skelGo, if_pos h]
      have hb : min (BATCH_SIZE * k0) n + min BATCH_SIZE (n - BATCH_SIZE * k0) =
          min (BATCH_SIZE * k0 + BATCH_SIZE) n := by
        simp only [BATCH_SIZE]
        omega
      rw [hb]
      have hnext : BATCH_SIZE * k0 + BATCH_SIZE = BATCH_SIZE * (k0 + 1) := by
        simp [Nat.mul_succ]
      rw [hnext, ih (k0 + 1) (by omega)]
      have hk0C : k0 < chunkCount n := by
        simp only [BATCH_SIZE, chunkCount] at *
        omega
      rw [show chunkCount n - k0 = (chunkCount n - (k0 + 1)) + 1 by omega,
        List.range'_succ, List.flatMap_cons]
      simp only [skelBlock]
      have hif : (if 0 < BATCH_SIZE * k0 then [PEv.del 1000] else []) =
          (if 0 < k0 then [PEv.del 1000] else []) := by
        by_cases hk : 0 < k0
        · rw [if_pos hk, if_pos (by simp only [BATCH_SIZE]; omega)]
        · rw [if_neg hk, if_neg (by simp only [BATCH_SIZE]; omega)]
      rw [hif]
      simp only [List.cons_append, List.append_assoc, List.nil_append]
      rw [hnext]
    · simp only [skelGo, if_neg h]
      rw [show chunkCount n - k0 = 0 by
        simp only [chunkCount, BATCH_SIZE] at *
        omega]
      rfl

theorem processCoordinates_skel (voc : List String)
    (client : ℕ → List CoordinateData → Option (List IdentEntry))
    (data : List CoordinateData) :
    (processCoordinates voc client data).2.map projEv =
      (List.range (chunkCount data.length)).flatMap (skelBlock data.length) := by
  rw [processCoordinates, processGo_skel voc client data.length data 0 0]
  have h := skelGo_closed data.length data.length 0
    (by simp only [chunkCount, BATCH_SIZE]; omega)
  simp only [Nat.mul_zero, Nat.zero_min, Nat.sub_zero] at h
  rw [h, List.range_eq_range']

theorem projFrame_applyF (voc : List String) (idents : List IdentEntry)
    (item r : CoordinateData) :
    projFrame ((fun (item r : CoordinateData) =>
      match idents.find? (fun (ident : IdentEntry) => ident.id == item.id) with
      | some m =>
        if m.township ≠ ("") ∧ m.township ∈ voc then
          { r with township := some m.township, status := Status.completed }
        else { r with status := Status.error }
      | none => { r with status := Status.error }) item r) = projFrame r := by
  rcases hf : idents.find? (fun (ident : IdentEntry) => ident.id == item.id) with _ | m
  · simp [hf, projFrame]
  · by_cases h : m.township ≠ ("") ∧ m.township ∈ voc
    · simp [hf, h, projFrame]
    · simp [hf, h, projFrame]

theorem progress_not_mem_ite (c : ℕ) (s : List CoordinateData) (i : ℕ) :
    Event.progress c s ∉ (if 0 < i then [Event.delay 1000] else []) := by
  by_cases hi : 0 < i
  · rw [if_pos hi]
    simp
  · rw [if_neg hi]
    simp

theorem processGo_frame (voc : List String)
    (client : ℕ → List CoordinateData → Option (List IdentEntry)) :
    ∀ (fuel : ℕ) (d : List CoordinateData) (i cnt : ℕ),
      (processGo voc client fuel d i cnt).1.map projFrame = d.map projFrame ∧
      ∀ c s, Event.progress c s ∈ (processGo voc client fuel d i cnt).2 →
        s.map projFrame = d.map projFrame := by
  intro fuel
  induction fuel with
  | zero =>
    intro d i cnt
    refine ⟨rfl, ?_⟩
    intro c s hs
    simp only [processGo] at hs
    cases hs
  | succ fuel ih =>
    intro d i cnt
    by_cases h : i < d.length
    · have hd1 : (markProcessing d ((d.drop i).take BATCH_SIZE)).map projFrame
          = d.map projFrame := by
        simp only [markProcessing]
        exact @chunkWrite_map_of _ projFrame
          (fun (_ r : CoordinateData) => { r with status := Status.processing })
          (fun _ _ => rfl) d ((d.drop i).take BATCH_SIZE)
      simp only [processGo, if_pos h]
      rcases hresp : client i
          (((markProcessing d ((d.drop i).take BATCH_SIZE)).drop i).take BATCH_SIZE)
        with _ | idents
      · have hd2 : (markErrorChunk (markProcessing d ((d.drop i).take BATCH_SIZE))
            ((d.drop i).take BATCH_SIZE)).map projFrame = d.map projFrame := by
          simp only [markErrorChunk]
          rw [@chunkWrite_map_of _ projFrame
            (fun (_ r : CoordinateData) => { r with status := Status.error })
            (fun _ _ => rfl) _ ((d.drop i).take BATCH_SIZE), hd1]
        obtain ⟨ih1, ih2⟩ := ih
          (markErrorChunk (markProcessing d ((d.drop i).take BATCH_SIZE))
            ((d.drop i).take BATCH_SIZE))
          (i + BATCH_SIZE) (cnt + ((d.drop i).take BATCH_SIZE).length)
        constructor
        · rw [ih1, hd2]
        · intro c s hs
          rw [List.mem_cons] at hs
          rcases hs with h1 | hs
          · injection h1 with _ hsnap
            rw [← hsnap] at hd1
            exact hd1
          rw [List.mem_append] at hs
          rcases hs with h2 | hs
          · exact absurd h2 (progress_not_mem_ite c s i)
          rw [List.mem_cons] at hs
          rcases hs with h3 | hs
          · simp at h3
          rw [List.mem_cons] at hs
          rcases hs with h4 | hs
          · injection h4 with _ hsnap
            have hs2 : s = markErrorChunk (markProcessing d ((d.drop i).take BATCH_SIZE))
                ((d.drop i).take BATCH_SIZE) := hsnap
            rw [hs2, hd2]
          · rw [ih2 c s hs, hd2]
      · have hd2 : (applyIdents voc (markProcessing d ((d.drop i).take BATCH_SIZE))
            ((d.drop i).take BATCH_SIZE) idents).map projFrame = d.map projFrame := by
          simp only [applyIdents]
          rw [chunkWrite_map_of (projFrame_applyF voc idents) _ ((d.drop i).take BATCH_SIZE),
            hd1]
        obtain ⟨ih1, ih2⟩ := ih
          (applyIdents voc (markProcessing d ((d.drop i).take BATCH_SIZE))
            ((d.drop i).take BATCH_SIZE) idents)
          (i + BATCH_SIZE) (cnt + ((d.drop i).take BATCH_SIZE).length)
        constructor
        · rw [ih1, hd2]
        · intro c s hs
          rw [List.mem_cons] at hs
          rcases hs with h1 | hs
          · injection h1 with _ hsnap
            rw [← hsnap] at hd1
            exact hd1
          rw [List.mem_append] at hs
          rcases hs with h2 | hs
          · exact absurd h2 (progress_not_mem_ite c s i)
          rw [List.mem_cons] at hs
          rcases hs with h3 | hs
          · simp at h3
          rw [List.mem_cons] at hs
          rcases hs with h4 | hs
          · injection h4 with _ hsnap
            have hs2 : s = applyIdents voc (markProcessing d ((d.drop i).take BATCH_SIZE))
                ((d.drop i).take BATCH_SIZE) idents := hsnap
            rw [hs2, hd2]
          · rw [ih2 c s hs, hd2]
    · constructor
      · simp only [processGo, if_neg h]
      · intro c s hs
        simp only [processGo, if_neg h] at hs
        cases hs

theorem chain'_flatMap_pairs {α : Type} (R : α → α → Prop) (f g : ℕ → α)
    (h1 : ∀ k, R (f k) (g k)) (h2 : ∀ k, R (g k) (f (k + 1))) :
    ∀ (m a : ℕ), List.Chain' R ((List.range' a m).flatMap (fun k => [f k, g k])) := by
  intro m
  induction m with
  | zero => intro a; simp
  | succ m ih =>
    intro a
    rw [List.range'_succ, List.flatMap_cons]
    cases m with
    | zero => simpa using h1 a
    | succ m' =>
      rw [List.range'_succ, List.flatMap_cons]
      simp only [List.cons_append, List.nil_append]
      rw [List.chain'_cons, List.chain'_cons, List.chain'_cons]
      refine ⟨h1 a, h2 a, h1 (a + 1), ?_⟩
      have := ih (a + 1)
      rw [List.range'_succ, List.flatMap_cons] at this
      simp only [List.cons_append, List.nil_append] at this
      rw [List.chain'_cons] at this
      exact this.2

theorem getLast?_flatMap_pairs {α : Type} (f g : ℕ → α) :
    ∀ (m a : ℕ), 0 < m →
      ((List.range' a m).flatMap (fun k => [f k, g k])).getLast? = some (g (a + m - 1)) := by
  intro m
  induction m with
  | zero => intro a h; omega
  | succ m ih =>
    intro a _
    rw [List.range'_succ, List.flatMap_cons]
    cases m with
    | zero => simp
    | succ m' =>
      rw [List.getLast?_append, ih (a + 1) (by omega)]
      simp only [Option.or_some]
      rw [show a + 1 + (m' + 1) - 1 = a + (m' + 1 + 1) - 1 by omega]

theorem parseLoop_eq (lines : List (List Char)) :
    ∀ acc, parseLoop lines acc = acc ++ lines.filterMap acceptedPair := by
  induction lines with
  | nil => intro acc; simp [parseLoop]
  | cons line rest ih =>
    intro acc
    cases hb : (!(pfOpt (sndLastTok (lineTokens line))).isNaN &&
        !(pfOpt (lineTokens line).getLast?).isNaN &&
        (pfOpt (sndLastTok (lineTokens line))).gtQ 100000 &&
        (pfOpt (lineTokens line).getLast?).gtQ 1000000) with
    | false =>
      have hx : ¬ ((pfOpt (sndLastTok (lineTokens line))).isNaN = false ∧
          (pfOpt (lineTokens line).getLast?).isNaN = false ∧
          (pfOpt (sndLastTok (lineTokens line))).gtQ 100000 = true ∧
          (pfOpt (lineTokens line).getLast?).gtQ 1000000 = true) := by
        rintro ⟨h1, h2, h3, h4⟩
        rw [h1, h2, h3, h4] at hb
        simp at hb
      simp only [parseLoop, acceptedPair, List.filterMap_cons]
      rw [if_neg (by rw [hb]; simp), if_neg hx, ih]
    | true =>
      have hx : (pfOpt (sndLastTok (lineTokens line))).isNaN = false ∧
          (pfOpt (lineTokens line).getLast?).isNaN = false ∧
          (pfOpt (sndLastTok (lineTokens line))).gtQ 100000 = true ∧
          (pfOpt (lineTokens line).getLast?).gtQ 1000000 = true := by
        simpa [Bool.and_eq_true, Bool.not_eq_true', and_assoc] using hb
      simp only [parseLoop, acceptedPair, List.filterMap_cons]
      rw [if_pos hb, if_pos hx, ih]
      simp [List.append_assoc]

theorem parseCoordinates_eq_parseSpec (text : String) :
    parseCoordinates text = parseSpec text := by
  rw [parseCoordinates, parseSpec, parseLoop_eq]
  simp

/-! ### Claim theorems -/

unseal Rat.mul Rat.add Rat.sub Rat.inv Rat.ofScientific in
set_option maxRecDepth 10000 in
/-- C5: Central-meridian fixed point.  For `x = 250000` (the false easting)
and `y = 0`, `twd97ToWgs84` under double-precision arithmetic returns
`lng` exactly `121.0` degrees: every correction term vanishes at `D = 0`,
`fp = 0` (the hypotheses pin the IEEE-mandated exact values `sin 0 = 0`,
`cos 0 = 1`, `0 ** 3 = 0`, `0 ** 5 = 0` of the otherwise opaque library
functions), and the remaining rounded computation
`((121 * π / 180) * 180) / π` is exact in binary64. -/
theorem C5_central_meridian_lng_exact (sq si co ta : ℚ → ℚ) (pw : ℚ → ℚ → ℚ)
    (hs : si 0 = 0) (hc : co 0 = 1) (h3 : pw 0 3 = 0) (h5 : pw 0 5 = 0) :
    (twd97ToWgs84 (doubleModel sq si co ta pw) 250000 0).2 = 121 := by
  have h250 : fl 250000 = 250000 := by decide
  have hf3 : fl 3 = 3 := by decide
  have hf5 : fl 5 = 5 := by decide
  simp only [twd97ToWgs84, doubleModel, h250, sub_self, fl_zero,
    zero_div, mul_zero, zero_mul, add_zero, zero_add, sub_zero, hs, hc, hf3, hf5,
    h3, h5, div_one]
  decide

unseal Rat.mul Rat.add Rat.sub Rat.inv Rat.ofScientific in
set_option maxRecDepth 10000 in
/-- C5 witness: the hypotheses are discharged at concrete stand-ins for the
library functions. -/
theorem C5_central_meridian_lng_exact_witness :
    (fun (_ : ℚ) => (0 : ℚ)) 0 = 0 ∧ (fun (_ : ℚ) => (1 : ℚ)) 0 = 1 ∧
    (fun (_ _ : ℚ) => (0 : ℚ)) 0 3 = 0 ∧ (fun (_ _ : ℚ) => (0 : ℚ)) 0 5 = 0 ∧
    (twd97ToWgs84 (doubleModel (fun _ => 1) (fun _ => 0) (fun _ => 1) (fun _ => 0)
      (fun _ _ => 0)) 250000 0).2 = 121 :=
  ⟨rfl, rfl, rfl, rfl,
    C5_central_meridian_lng_exact (fun _ => 1) (fun _ => 0) (fun _ => 1) (fun _ => 0)
      (fun _ _ => 0) rfl rfl rfl rfl⟩

/-- C6: Determinism of the converter.  `twd97ToWgs84` is a pure function of
the arithmetic model and the two inputs: identical inputs give identical
(hence bit-identical, under the deterministic double interpretation)
outputs; the embedding takes no other state. -/
theorem C6_converter_deterministic (A : MathModel) (x y u v : ℚ)
    (hx : x = u) (hy : y = v) :
    twd97ToWgs84 A x y = twd97ToWgs84 A u v := by
  rw [hx, hy]

/-- C6 witness: applied at a concrete model and input. -/
theorem C6_converter_deterministic_witness :
    (250000 : ℚ) = 250000 ∧ (0 : ℚ) = 0 ∧
    twd97ToWgs84 (doubleModel (fun q => q) (fun _ => 0) (fun _ => 1) (fun _ => 0)
        (fun _ _ => 0)) 250000 0 =
      twd97ToWgs84 (doubleModel (fun q => q) (fun _ => 0) (fun _ => 1) (fun _ => 0)
        (fun _ _ => 0)) 250000 0 :=
  ⟨rfl, rfl,
    C6_converter_deterministic (doubleModel (fun q => q) (fun _ => 0) (fun _ => 1)
      (fun _ => 0) (fun _ _ => 0)) 250000 0 250000 0 rfl rfl⟩

unseal Rat.mul Rat.add Rat.sub Rat.inv Rat.ofScientific in
set_option maxRecDepth 10000 in
/-- C3 counterexample: the claim's "both values parse as finite numbers" is
falsified by the code.  On the input line `200000 Infinity` the parser
outputs the pair `(200000, Infinity)`: `parseFloat` yields the non-finite
`Infinity`, which passes the code's `!isNaN` check and the `> 1000000`
bound, so a pair with a non-finite member is included. -/
theorem C3_parser_counterexample :
    parseCoordinates ("200000 Infinity") = [⟨JsNum.fin 200000, JsNum.inf⟩] ∧
    JsNum.isFinite JsNum.inf = false := by
  constructor
  · decide
  · rfl

unseal Rat.mul Rat.add Rat.sub Rat.inv Rat.ofScientific in
set_option maxRecDepth 10000 in
/-- C3 (amended): for every input text, `parseCoordinates` outputs, for each
surviving line in input order, the pair taken from the last two tokens
(`x` second-to-last, `y` last), and a pair is included if and only if both
values parse as numbers other than `NaN` (a non-finite `parseFloat` result
such as `Infinity` also passes) and `x > 100000` and `y > 1000000`
(`parseSpec` states exactly this acceptance rule); lines failing parse or
bounds are silently dropped (the embedding is total, so no error is
raised), and an empty or fully-header input yields an empty sequence. -/
theorem C3_parser_acceptance (text : String) :
    parseCoordinates text = parseSpec text ∧
    parseCoordinates ("") = [] ∧
    parseCoordinates ("點位名稱,X,Y") = [] :=
  ⟨parseCoordinates_eq_parseSpec text, by decide, by decide⟩

unseal Rat.mul Rat.add Rat.sub Rat.inv Rat.ofScientific in
set_option maxRecDepth 10000 in
/-- C10: the header filter drops every line containing `點位名稱` or the
character `X` anywhere, so the data line `PX1,201234.5,2655678.9` — whose
coordinate pair is valid, as the same line with label `P1` shows — is
silently excluded from the output. -/
theorem C10_header_filter_overbreadth :
    (∀ (text : String) (l : List Char),
        containsSub l [('X')] = true → l ∉ keptLines text) ∧
    parseCoordinates ("PX1,201234.5,2655678.9") = [] ∧
    parseCoordinates ("P1,201234.5,2655678.9") =
      [⟨JsNum.fin (201234.5 : ℚ), JsNum.fin (2655678.9 : ℚ)⟩] := by
  refine ⟨?_, by decide, by decide⟩
  intro text l hX hmem
  rw [keptLines, List.mem_filter] at hmem
  have h2 := hmem.2
  rw [hX] at h2
  simp at h2

set_option maxRecDepth 10000 in
/-- C10 witness: the general filter fact applied at the concrete excluded
line. -/
theorem C10_header_filter_overbreadth_witness :
    containsSub ("PX1,201234.5,2655678.9").data [('X')] = true ∧
    ("PX1,201234.5,2655678.9").data ∉ keptLines ("abc") :=
  ⟨by decide,
    C10_header_filter_overbreadth.1 ("abc") ("PX1,201234.5,2655678.9").data (by decide)⟩

theorem head?_flatMap_pairs {α : Type} (f g : ℕ → α) (m a : ℕ) (hm : 0 < m) :
    ((List.range' a m).flatMap (fun k => [f k, g k])).head? = some (f a) := by
  cases m with
  | zero => omega
  | succ m' =>
    rw [List.range'_succ, List.flatMap_cons]
    rfl

theorem skelBlock_pc (n k : ℕ) :
    (skelBlock n k).filterMap pcProj? =
      [PEv.prog (min (BATCH_SIZE * k) n), PEv.call (BATCH_SIZE * k),
       PEv.prog (min (BATCH_SIZE * k + BATCH_SIZE) n)] := by
  by_cases hk : 0 < k
  · simp [skelBlock, hk, pcProj?]
  · simp [skelBlock, hk, pcProj?]

theorem skelBlock_counts (n k : ℕ) :
    (skelBlock n k).filterMap progOfPEv =
      [min (BATCH_SIZE * k) n, min (BATCH_SIZE * k + BATCH_SIZE) n] := by
  by_cases hk : 0 < k
  · simp [skelBlock, hk, progOfPEv]
  · simp [skelBlock, hk, progOfPEv]

theorem skelBlock_dc (n k : ℕ) :
    (skelBlock n k).filterMap dcProj? =
      (if 0 < k then [PEv.del 1000] else []) ++ [PEv.call (BATCH_SIZE * k)] := by
  by_cases hk : 0 < k
  · simp [skelBlock, hk, dcProj?]
  · simp [skelBlock, hk, dcProj?]

theorem skelBlock_call (n k : ℕ) :
    (skelBlock n k).filterMap callOfPEv = [BATCH_SIZE * k] := by
  by_cases hk : 0 < k
  · simp [skelBlock, hk, callOfPEv]
  · simp [skelBlock, hk, callOfPEv]

theorem blockEvents_snaps (voc : List String)
    (client : ℕ → List CoordinateData → Option (List IdentEntry))
    (data : List CoordinateData) (k : ℕ) :
    (blockEvents voc client data k).filterMap progSnap? =
      [snapHalf voc client data k, resolvedUpTo voc client data (k + 1)] := by
  by_cases hk : 0 < k
  · simp [blockEvents, hk, progSnap?]
  · simp [blockEvents, hk, progSnap?]

/-- C7: frame property of orchestration.  For every input record list and
every client behaviour, `processCoordinates` never modifies the `id`,
`originalX`, `originalY`, `lat` or `lng` field of any record (`projFrame`
projects exactly these five fields): the final list and every snapshot
passed to `onProgress` agree with the input on them; only `township` and
`status` are ever written. -/
theorem C7_frame_property (voc : List String)
    (client : ℕ → List CoordinateData → Option (List IdentEntry))
    (allData : List CoordinateData) :
    (processCoordinates voc client allData).1.map projFrame = allData.map projFrame ∧
    ∀ c s, Event.progress c s ∈ (processCoordinates voc client allData).2 →
      s.map projFrame = allData.map projFrame :=
  processGo_frame voc client allData.length allData 0 0

set_option maxRecDepth 10000 in
/-- C7 witness: the snapshot membership hypothesis discharged at a concrete
one-record run. -/
theorem C7_frame_property_witness :
    ((processCoordinates [] (fun _ _ => none)
        [⟨1, 2, 3, 4, 5, none, Status.pending⟩]).1.map projFrame =
      [⟨1, 2, 3, 4, 5, none, Status.pending⟩].map projFrame) ∧
    Event.progress 0 [⟨1, 2, 3, 4, 5, none, Status.processing⟩] ∈
      (processCoordinates [] (fun _ _ => none)
        [⟨1, 2, 3, 4, 5, none, Status.pending⟩]).2 ∧
    ([⟨1, 2, 3, 4, 5, none, Status.processing⟩] : List CoordinateData).map projFrame =
      [⟨1, 2, 3, 4, 5, none, Status.pending⟩].map projFrame :=
  ⟨(C7_frame_property [] (fun _ _ => none) [⟨1, 2, 3, 4, 5, none, Status.pending⟩]).1,
    by decide,
    (C7_frame_property [] (fun _ _ => none) [⟨1, 2, 3, 4, 5, none, Status.pending⟩]).2
      0 [⟨1, 2, 3, 4, 5, none, Status.processing⟩] (by decide)⟩

/-- C4: progress monotonicity and termination.  For every input list and
client behaviour: the trace restricted to progress counts and client calls
is, chunk by chunk, `[progress (before), call, progress (after)]` — so
`onProgress` fires at least twice per chunk, once before the client call
and once after the chunk is resolved; successive reported counts are
non-decreasing; and when the input is nonempty the final report equals the
total number of records. -/
theorem C4_progress_monotonic (voc : List String)
    (client : ℕ → List CoordinateData → Option (List IdentEntry))
    (allData : List CoordinateData) :
    ((processCoordinates voc client allData).2.map projEv).filterMap pcProj? =
      (List.range (chunkCount allData.length)).flatMap (fun k =>
        [PEv.prog (min (BATCH_SIZE * k) allData.length),
         PEv.call (BATCH_SIZE * k),
         PEv.prog (min (BATCH_SIZE * k + BATCH_SIZE) allData.length)]) ∧
    List.Chain' (· ≤ ·)
      ((processCoordinates voc client allData).2.filterMap progCount?) ∧
    (allData ≠ [] →
      ((processCoordinates voc client allData).2.filterMap progCount?).getLast? =
        some allData.length) := by
  have hskel := processCoordinates_skel voc client allData
  have hcounts : (processCoordinates voc client allData).2.filterMap progCount? =
      (List.range (chunkCount allData.length)).flatMap (fun k =>
        [min (BATCH_SIZE * k) allData.length,
         min (BATCH_SIZE * k + BATCH_SIZE) allData.length]) := by
    have h1 : (processCoordinates voc client allData).2.filterMap progCount? =
        ((processCoordinates voc client allData).2.map projEv).filterMap progOfPEv := by
      rw [List.filterMap_map]
      have : progOfPEv ∘ projEv = progCount? := by
        funext e
        cases e <;> rfl
      rw [this]
    rw [h1, hskel, List.filterMap_flatMap]
    simp only [skelBlock_counts]
  refine ⟨?_, ?_, ?_⟩
  · rw [hskel, List.filterMap_flatMap]
    simp only [skelBlock_pc]
  · rw [hcounts, List.range_eq_range']
    apply chain'_flatMap_pairs
    · intro k
      simp only [BATCH_SIZE]
      omega
    · intro k
      simp only [BATCH_SIZE]
      omega
  · intro hne
    have hn : 0 < allData.length := List.length_pos.mpr hne
    have hC : 0 < chunkCount allData.length := by
      simp only [chunkCount, BATCH_SIZE]
      omega
    rw [hcounts, List.range_eq_range', getLast?_flatMap_pairs _ _ _ 0 hC]
    have : min (BATCH_SIZE * (0 + chunkCount allData.length - 1) + BATCH_SIZE)
        allData.length = allData.length := by
      simp only [chunkCount, BATCH_SIZE] at *
      omega
    rw [this]

set_option maxRecDepth 10000 in
/-- C4 witness: the nonemptiness hypothesis discharged on a concrete
seven-record run. -/
theorem C4_progress_monotonic_witness :
    ((List.range 7).map (fun i => (⟨i + 1, 0, 0, 0, 0, none, Status.pending⟩ :
        CoordinateData)) ≠ []) ∧
    (((processCoordinates [] (fun _ _ => none)
        ((List.range 7).map (fun i => ⟨i + 1, 0, 0, 0, 0, none, Status.pending⟩))).2.filterMap
          progCount?).getLast? = some 7) :=
  ⟨by decide,
    by
      have h := (C4_progress_monotonic [] (fun _ _ => none)
        ((List.range 7).map (fun i => ⟨i + 1, 0, 0, 0, 0, none, Status.pending⟩))).2.2
        (by decide)
      simpa using h⟩

/-- C9: inter-chunk rate limiting.  For every run, the trace restricted to
delays and client calls is `[call 0]` for the first chunk and
`[delay 1000, call (BATCH_SIZE * k)]` for every chunk `k ≥ 1`: the fixed
1000 ms delay is awaited immediately before the client call of every chunk
after the first, and no delay precedes the first chunk's call. -/
theorem C9_inter_chunk_delay (voc : List String)
    (client : ℕ → List CoordinateData → Option (List IdentEntry))
    (allData : List CoordinateData) :
    ((processCoordinates voc client allData).2.map projEv).filterMap dcProj? =
      (List.range (chunkCount allData.length)).flatMap (fun k =>
        (if 0 < k then [PEv.del 1000] else []) ++ [PEv.call (BATCH_SIZE * k)]) := by
  rw [processCoordinates_skel voc client allData, List.filterMap_flatMap]
  simp only [skelBlock_dc]

set_option maxRecDepth 100000 in
/-- C1 counterexample: with a duplicate id (positions 0 and 5 both carry
id 1), chunk 0 succeeds with valid townships and chunk 1's client call
fails, yet the failure is not confined to chunk 1: position 5 — a record
of the failing chunk — ends `pending` (never marked `error`), while
position 0 — a record of the succeeding chunk — is clobbered to `error`
through the id-based `findIndex` lookup.  The claim as stated over every
input record list is false. -/
theorem C1_chunk_isolation_counterexample :
    ((processCoordinates [("甲")]
        (fun i _ => if i = 0
          then some [⟨1, ("甲")⟩, ⟨2, ("甲")⟩, ⟨3, ("甲")⟩, ⟨4, ("甲")⟩, ⟨5, ("甲")⟩]
          else none)
        [⟨1, 0, 0, 0, 0, none, Status.pending⟩, ⟨2, 0, 0, 0, 0, none, Status.pending⟩,
         ⟨3, 0, 0, 0, 0, none, Status.pending⟩, ⟨4, 0, 0, 0, 0, none, Status.pending⟩,
         ⟨5, 0, 0, 0, 0, none, Status.pending⟩,
         ⟨1, 0, 0, 0, 0, none, Status.pending⟩]).1.map (·.status)) =
      [Status.error, Status.completed, Status.completed, Status.completed,
       Status.completed, Status.pending] := by
  decide

/-- C1 (amended): for every input record list with pairwise-distinct ids and
every client behaviour, if the client call of the chunk starting at
`BATCH_SIZE * k` fails then (i) every record of that chunk ends with status
`error`; (ii) every record outside that chunk is untouched by the failure —
its final value is `outcomeRec` of its own chunk's response alone; and
(iii) every chunk is attempted exactly once — the trace contains exactly one
client call per chunk, at the chunk start indices in order.  No exception
escapes: the embedding of `process()` is a total function and the failing
branch is the `catch` block. -/
theorem C1_chunk_isolation (voc : List String)
    (client : ℕ → List CoordinateData → Option (List IdentEntry))
    (data : List CoordinateData)
    (hnd : (data.map (·.id)).Nodup) (k : ℕ)
    (hk : BATCH_SIZE * k < data.length)
    (hfail : client (BATCH_SIZE * k) (batchSpec data k) = none) :
    (∀ j, BATCH_SIZE * k ≤ j → j < min (BATCH_SIZE * k + BATCH_SIZE) data.length →
      ((processCoordinates voc client data).1[j]?).map (·.status) = some Status.error) ∧
    (∀ j rj, j < data.length → j / BATCH_SIZE ≠ k → data[j]? = some rj →
      (processCoordinates voc client data).1[j]? =
        some (outcomeRec voc (respAt client data (j / BATCH_SIZE)) rj)) ∧
    ((processCoordinates voc client data).2.map projEv).filterMap callOfPEv =
      (List.range (chunkCount data.length)).map (fun k => BATCH_SIZE * k) := by
  have hmaster := processCoordinates_master voc client data hnd
  refine ⟨?_, ?_, ?_⟩
  · intro j hj1 hj2
    have hjn : j < data.length := by omega
    obtain ⟨rj, hrj⟩ : ∃ rj, data[j]? = some rj := by
      rcases hx : data[j]? with _ | rj
      · rw [List.getElem?_eq_none_iff] at hx
        omega
      · exact ⟨rj, rfl⟩
    have hdiv : j / BATCH_SIZE = k := by
      obtain ⟨t, ht⟩ : ∃ t, j = BATCH_SIZE * k + t ∧ t < BATCH_SIZE :=
        ⟨j - BATCH_SIZE * k, by omega, by omega⟩
      rw [ht.1]
      exact div_batch_eq k _ ht.2
    have hC : j / BATCH_SIZE < chunkCount data.length := by
      simp only [BATCH_SIZE, chunkCount] at *
      omega
    rw [hmaster]
    simp only [getElem?_resolvedUpTo, hrj, Option.map_some', if_pos hC, hdiv]
    have hresp : respAt client data k = none := hfail
    rw [hresp]
    rw [if_pos (show k < chunkCount data.length from by
      simp only [BATCH_SIZE, chunkCount] at *
      omega)]
    rfl
  · intro j rj hjn _ hrj
    have hC : j / BATCH_SIZE < chunkCount data.length := by
      simp only [BATCH_SIZE, chunkCount] at *
      omega
    rw [hmaster]
    simp only [getElem?_resolvedUpTo, hrj, Option.map_some', if_pos hC]
  · rw [processCoordinates_skel voc client data, List.filterMap_flatMap]
    simp only [skelBlock_call]
    induction List.range (chunkCount data.length) with
    | nil => rfl
    | cons x xs ih => simp [List.flatMap_cons, ih]

set_option maxRecDepth 100000 in
/-- C1 witness: the amended theorem applied at a six-record run with
distinct ids whose second chunk's client call fails. -/
theorem C1_chunk_isolation_witness :
    (([⟨1, 0, 0, 0, 0, none, Status.pending⟩, ⟨2, 0, 0, 0, 0, none, Status.pending⟩,
       ⟨3, 0, 0, 0, 0, none, Status.pending⟩, ⟨4, 0, 0, 0, 0, none, Status.pending⟩,
       ⟨5, 0, 0, 0, 0, none, Status.pending⟩, ⟨6, 0, 0, 0, 0, none, Status.pending⟩]
        : List CoordinateData).map (·.id)).Nodup ∧
    BATCH_SIZE * 1 <
      ([⟨1, 0, 0, 0, 0, none, Status.pending⟩, ⟨2, 0, 0, 0, 0, none, Status.pending⟩,
        ⟨3, 0, 0, 0, 0, none, Status.pending⟩, ⟨4, 0, 0, 0, 0, none, Status.pending⟩,
        ⟨5, 0, 0, 0, 0, none, Status.pending⟩, ⟨6, 0, 0, 0, 0, none, Status.pending⟩]
          : List CoordinateData).length ∧
    ((fun (i : ℕ) (_ : List CoordinateData) =>
        if i = 0 then some [(⟨1, ("甲")⟩ : IdentEntry)] else none) (BATCH_SIZE * 1)
      (batchSpec [⟨1, 0, 0, 0, 0, none, Status.pending⟩, ⟨2, 0, 0, 0, 0, none, Status.pending⟩,
        ⟨3, 0, 0, 0, 0, none, Status.pending⟩, ⟨4, 0, 0, 0, 0, none, Status.pending⟩,
        ⟨5, 0, 0, 0, 0, none, Status.pending⟩, ⟨6, 0, 0, 0, 0, none, Status.pending⟩] 1)
      = none) ∧
    (((processCoordinates [("甲")]
        (fun (i : ℕ) (_ : List CoordinateData) =>
          if i = 0 then some [(⟨1, ("甲")⟩ : IdentEntry)] else none)
        [⟨1, 0, 0, 0, 0, none, Status.pending⟩, ⟨2, 0, 0, 0, 0, none, Status.pending⟩,
         ⟨3, 0, 0, 0, 0, none, Status.pending⟩, ⟨4, 0, 0, 0, 0, none, Status.pending⟩,
         ⟨5, 0, 0, 0, 0, none, Status.pending⟩,
         ⟨6, 0, 0, 0, 0, none, Status.pending⟩]).1[5]?).map (·.status))
      = some Status.error :=
  ⟨by decide, by decide, rfl,
    (C1_chunk_isolation [("甲")]
      (fun (i : ℕ) (_ : List CoordinateData) =>
        if i = 0 then some [(⟨1, ("甲")⟩ : IdentEntry)] else none)
      [⟨1, 0, 0, 0, 0, none, Status.pending⟩, ⟨2, 0, 0, 0, 0, none, Status.pending⟩,
       ⟨3, 0, 0, 0, 0, none, Status.pending⟩, ⟨4, 0, 0, 0, 0, none, Status.pending⟩,
       ⟨5, 0, 0, 0, 0, none, Status.pending⟩, ⟨6, 0, 0, 0, 0, none, Status.pending⟩]
      (by decide) 1 (by decide) rfl).1 5 (by decide) (by decide)⟩

set_option maxRecDepth 100000 in
/-- C2 counterexample: the claim's "completed iff the returned sequence
contains an id-matching entry with a vocabulary township" is false as
stated.  Two records share id 1 and the client's response carries two
entries for id 1 — first an out-of-vocabulary township, then a valid one.
The response does contain an id-matching entry with a valid township, yet
`find` takes the first match, so record 0 ends `error`; and the
duplicate-id record 1 is never written at all (its `findIndex` hits
position 0), ending `pending` rather than `completed` or `error`. -/
theorem C2_id_matching_counterexample :
    ((processCoordinates [("甲")]
        (fun _ _ => some [⟨1, ("丙")⟩, ⟨1, ("甲")⟩])
        [⟨1, 0, 0, 0, 0, none, Status.pending⟩,
         ⟨1, 0, 0, 0, 0, none, Status.pending⟩]).1.map (·.status) =
      [Status.error, Status.pending]) ∧
    (([(⟨1, ("丙")⟩ : IdentEntry), ⟨1, ("甲")⟩].any
        (fun m => m.id == 1 && [("甲")].contains m.township)) = true) := by
  constructor
  · decide
  · decide

/-- C2 (amended): for every record list with pairwise-distinct ids, when the
client call of a record's chunk succeeds with response `idents`, the record
is resolved by `outcomeRec`: it ends `completed` (with that township
written) if and only if the first entry of `idents` whose id equals the
record's id — matching strictly by id, not by position — exists and carries
a township that is nonempty and belongs to the vocabulary; otherwise
(unmatched id, or first-matching entry out of vocabulary) the entry is
treated as a missing result and the record ends `error`. -/
theorem C2_id_matching (voc : List String)
    (client : ℕ → List CoordinateData → Option (List IdentEntry))
    (data : List CoordinateData)
    (hnd : (data.map (·.id)).Nodup) (j : ℕ) (rj : CoordinateData)
    (idents : List IdentEntry)
    (hj : data[j]? = some rj)
    (hresp : client (BATCH_SIZE * (j / BATCH_SIZE)) (batchSpec data (j / BATCH_SIZE)) =
      some idents) :
    (processCoordinates voc client data).1[j]? =
      some (outcomeRec voc (some idents) rj) ∧
    (((processCoordinates voc client data).1[j]?).map (·.status) = some Status.completed ↔
      ∃ m, idents.find? (fun e => e.id == rj.id) = some m ∧
        m.township ≠ ("") ∧ m.township ∈ voc) := by
  have hjn : j < data.length := by
    rcases List.getElem?_eq_some_iff.mp hj with ⟨h, _⟩
    exact h
  have hC : j / BATCH_SIZE < chunkCount data.length := by
    simp only [BATCH_SIZE, chunkCount] at *
    omega
  have h1 : (processCoordinates voc client data).1[j]? =
      some (outcomeRec voc (some idents) rj) := by
    rw [processCoordinates_master voc client data hnd]
    simp only [getElem?_resolvedUpTo, hj, Option.map_some', if_pos hC]
    have hr : respAt client data (j / BATCH_SIZE) = some idents := hresp
    rw [hr]
  refine ⟨h1, ?_⟩
  rw [h1]
  simp only [Option.map_some', Option.some_inj]
  constructor
  · intro hcomp
    rcases hf : idents.find? (fun e => e.id == rj.id) with _ | m
    · simp only [outcomeRec, hf] at hcomp
      simp at hcomp
    · refine ⟨m, hf, ?_⟩
      by_cases hv : m.township ≠ ("") ∧ m.township ∈ voc
      · exact hv
      · simp only [outcomeRec, hf, if_neg hv] at hcomp
        simp at hcomp
  · rintro ⟨m, hf, hv⟩
    simp only [outcomeRec, hf, if_pos hv]

set_option maxRecDepth 100000 in
/-- C2 witness: the amended theorem applied at a two-record run whose
response lists the ids out of order, with an out-of-vocabulary township for
id 1. -/
theorem C2_id_matching_witness :
    (([⟨1, 0, 0, 0, 0, none, Status.pending⟩, ⟨2, 0, 0, 0, 0, none, Status.pending⟩]
        : List CoordinateData).map (·.id)).Nodup ∧
    (([⟨1, 0, 0, 0, 0, none, Status.pending⟩, ⟨2, 0, 0, 0, 0, none, Status.pending⟩]
        : List CoordinateData)[0]? = some ⟨1, 0, 0, 0, 0, none, Status.pending⟩) ∧
    ((fun (_ : ℕ) (_ : List CoordinateData) =>
        some [(⟨2, ("甲")⟩ : IdentEntry), ⟨1, ("乙")⟩]) (BATCH_SIZE * (0 / BATCH_SIZE))
      (batchSpec [⟨1, 0, 0, 0, 0, none, Status.pending⟩,
        ⟨2, 0, 0, 0, 0, none, Status.pending⟩] (0 / BATCH_SIZE)) =
      some [(⟨2, ("甲")⟩ : IdentEntry), ⟨1, ("乙")⟩]) ∧
    ((processCoordinates [("甲")]
        (fun _ _ => some [(⟨2, ("甲")⟩ : IdentEntry), ⟨1, ("乙")⟩])
        [⟨1, 0, 0, 0, 0, none, Status.pending⟩,
         ⟨2, 0, 0, 0, 0, none, Status.pending⟩]).1[0]? =
      some (outcomeRec [("甲")] (some [(⟨2, ("甲")⟩ : IdentEntry), ⟨1, ("乙")⟩])
        ⟨1, 0, 0, 0, 0, none, Status.pending⟩)) :=
  ⟨by decide, rfl, rfl,
    (C2_id_matching [("甲")] (fun _ _ => some [(⟨2, ("甲")⟩ : IdentEntry), ⟨1, ("乙")⟩])
      [⟨1, 0, 0, 0, 0, none, Status.pending⟩, ⟨2, 0, 0, 0, 0, none, Status.pending⟩]
      (by decide) 0 ⟨1, 0, 0, 0, 0, none, Status.pending⟩
      [(⟨2, ("甲")⟩ : IdentEntry), ⟨1, ("乙")⟩] rfl rfl).1⟩

theorem processCoordinates_trace (voc : List String)
    (client : ℕ → List CoordinateData → Option (List IdentEntry))
    (data : List CoordinateData)
    (hnd : (data.map (·.id)).Nodup) :
    (processCoordinates voc client data).2 =
      (List.range (chunkCount data.length)).flatMap (blockEvents voc client data) := by
  rw [processCoordinates_master voc client data hnd]

/-- C8: status monotonicity and single township write.  Over records with
distinct ids that all start `pending` (the spec's data-model invariants),
the status of each record position only moves forward along
`pending → processing → (completed | error)` across the successive
`onProgress` snapshots (`List.Chain' stepOk`), and the township field
starts at its initial value and changes at most once: every step of the
township trail either keeps the value or departs from the initial one. -/
theorem C8_status_monotonicity (voc : List String)
    (client : ℕ → List CoordinateData → Option (List IdentEntry))
    (data : List CoordinateData)
    (hnd : (data.map (·.id)).Nodup)
    (hpend : ∀ r ∈ data, r.status = Status.pending)
    (j : ℕ) (rj : CoordinateData) (hj : data[j]? = some rj) :
    List.Chain' stepOk (statusTrail (processCoordinates voc client data).2 j) ∧
    List.Chain' (fun a b : Option String => a = b ∨ a = rj.township)
      (townshipTrail (processCoordinates voc client data).2 j) ∧
    (townshipTrail (processCoordinates voc client data).2 j).head? =
      some rj.township := by
  have htr := processCoordinates_trace voc client data hnd
  have hst : statusTrail (processCoordinates voc client data).2 j =
      (List.range' 0 (chunkCount data.length)).flatMap (fun k =>
        [statusOf ((snapHalf voc client data k)[j]?),
         statusOf ((resolvedUpTo voc client data (k + 1))[j]?)]) := by
    simp only [statusTrail, progressSnapshots]
    rw [htr, List.range_eq_range', List.filterMap_flatMap, List.map_flatMap]
    simp only [blockEvents_snaps, List.map_cons, List.map_nil]
  have htw : townshipTrail (processCoordinates voc client data).2 j =
      (List.range' 0 (chunkCount data.length)).flatMap (fun k =>
        [twOf ((snapHalf voc client data k)[j]?),
         twOf ((resolvedUpTo voc client data (k + 1))[j]?)]) := by
    simp only [townshipTrail, progressSnapshots]
    rw [htr, List.range_eq_range', List.filterMap_flatMap, List.map_flatMap]
    simp only [blockEvents_snaps, List.map_cons, List.map_nil]
  have hrjst : rj.status = Status.pending :=
    hpend rj (List.mem_iff_getElem?.mpr ⟨j, hj⟩)
  have h1s : ∀ k, stepOk (statusOf ((snapHalf voc client data k)[j]?))
      (statusOf ((resolvedUpTo voc client data (k + 1))[j]?)) := by
    intro k
    rw [getElem?_snapHalf, getElem?_resolvedUpTo, hj]
    simp only [Option.map_some', statusOf, Option.getD_some]
    by_cases hlt : j / BATCH_SIZE < k
    · simp only [if_pos hlt, if_pos (Nat.lt_succ_of_lt hlt)]
      exact Or.inl rfl
    · by_cases heq : j / BATCH_SIZE = k
      · simp only [if_neg hlt, if_pos heq,
          if_pos (show j / BATCH_SIZE < k + 1 by omega)]
        rcases outcomeRec_status voc (respAt client data (j / BATCH_SIZE)) rj with h | h
        · exact Or.inr (Or.inr ⟨rfl, Or.inl h⟩)
        · exact Or.inr (Or.inr ⟨rfl, Or.inr h⟩)
      · simp only [if_neg hlt, if_neg heq,
          if_neg (show ¬ j / BATCH_SIZE < k + 1 by omega)]
        exact Or.inl rfl
  have h2s : ∀ k, stepOk (statusOf ((resolvedUpTo voc client data (k + 1))[j]?))
      (statusOf ((snapHalf voc client data (k + 1))[j]?)) := by
    intro k
    rw [getElem?_snapHalf, getElem?_resolvedUpTo, hj]
    simp only [Option.map_some', statusOf, Option.getD_some]
    by_cases hlt : j / BATCH_SIZE < k + 1
    · simp only [if_pos hlt]
      exact Or.inl rfl
    · by_cases heq : j / BATCH_SIZE = k + 1
      · simp only [if_neg hlt, if_pos heq]
        exact Or.inr (Or.inl ⟨hrjst, rfl⟩)
      · simp only [if_neg hlt, if_neg heq]
        exact Or.inl rfl
  have h1t : ∀ k, (twOf ((snapHalf voc client data k)[j]?) =
        twOf ((resolvedUpTo voc client data (k + 1))[j]?) ∨
      twOf ((snapHalf voc client data k)[j]?) = rj.township) := by
    intro k
    rw [getElem?_snapHalf, getElem?_resolvedUpTo, hj]
    simp only [Option.map_some', twOf, Option.getD_some]
    by_cases hlt : j / BATCH_SIZE < k
    · simp only [if_pos hlt, if_pos (Nat.lt_succ_of_lt hlt)]
      exact Or.inl trivial
    · by_cases heq : j / BATCH_SIZE = k
      · simp only [if_neg hlt, if_pos heq]
        exact Or.inr rfl
      · simp only [if_neg hlt, if_neg heq,
          if_neg (show ¬ j / BATCH_SIZE < k + 1 by omega)]
        exact Or.inl trivial
  have h2t : ∀ k, (twOf ((resolvedUpTo voc client data (k + 1))[j]?) =
        twOf ((snapHalf voc client data (k + 1))[j]?) ∨
      twOf ((resolvedUpTo voc client data (k + 1))[j]?) = rj.township) := by
    intro k
    rw [getElem?_snapHalf, getElem?_resolvedUpTo, hj]
    simp only [Option.map_some', twOf, Option.getD_some]
    by_cases hlt : j / BATCH_SIZE < k + 1
    · simp only [if_pos hlt]
      exact Or.inl trivial
    · by_cases heq : j / BATCH_SIZE = k + 1
      · simp only [if_neg hlt, if_pos heq]
        exact Or.inl rfl
      · simp only [if_neg hlt, if_neg heq]
        exact Or.inl trivial
  refine ⟨?_, ?_, ?_⟩
  · rw [hst]
    exact chain'_flatMap_pairs stepOk
      (fun k => statusOf ((snapHalf voc client data k)[j]?))
      (fun k => statusOf ((resolvedUpTo voc client data (k + 1))[j]?))
      h1s h2s (chunkCount data.length) 0
  · rw [htw]
    exact chain'_flatMap_pairs (fun a b : Option String => a = b ∨ a = rj.township)
      (fun k => twOf ((snapHalf voc client data k)[j]?))
      (fun k => twOf ((resolvedUpTo voc client data (k + 1))[j]?))
      h1t h2t (chunkCount data.length) 0
  · have hC : 0 < chunkCount data.length := by
      rcases List.getElem?_eq_some_iff.mp hj with ⟨hjl, _⟩
      simp only [chunkCount, BATCH_SIZE]
      omega
    rw [htw, head?_flatMap_pairs (fun k => twOf ((snapHalf voc client data k)[j]?))
      (fun k => twOf ((resolvedUpTo voc client data (k + 1))[j]?))
      (chunkCount data.length) 0 hC]
    show some (twOf ((snapHalf voc client data 0)[j]?)) = some rj.township
    rw [getElem?_snapHalf, hj]
    simp only [Option.map_some', twOf, Option.getD_some]
    rw [if_neg (Nat.not_lt_zero (j / BATCH_SIZE))]
    by_cases heq : j / BATCH_SIZE = 0
    · rw [if_pos heq]
      rfl
    · rw [if_neg heq]

/-- C8 witness: the hypotheses discharged on a concrete one-record run. -/
theorem C8_status_monotonicity_witness :
    ((([⟨1, 0, 0, 0, 0, none, Status.pending⟩] : List CoordinateData)).map (·.id)).Nodup ∧
    (∀ r ∈ ([⟨1, 0, 0, 0, 0, none, Status.pending⟩] : List CoordinateData),
      r.status = Status.pending) ∧
    (([⟨1, 0, 0, 0, 0, none, Status.pending⟩] : List CoordinateData)[0]? =
      some ⟨1, 0, 0, 0, 0, none, Status.pending⟩) ∧
    (List.Chain' stepOk (statusTrail (processCoordinates [("甲")]
        (fun _ _ => some [(⟨1, ("甲")⟩ : IdentEntry)])
        [⟨1, 0, 0, 0, 0, none, Status.pending⟩]).2 0) ∧
     List.Chain' (fun a b : Option String => a = b ∨
        a = (⟨1, 0, 0, 0, 0, none, Status.pending⟩ : CoordinateData).township)
      (townshipTrail (processCoordinates [("甲")]
        (fun _ _ => some [(⟨1, ("甲")⟩ : IdentEntry)])
        [⟨1, 0, 0, 0, 0, none, Status.pending⟩]).2 0) ∧
     (townshipTrail (processCoordinates [("甲")]
        (fun _ _ => some [(⟨1, ("甲")⟩ : IdentEntry)])
        [⟨1, 0, 0, 0, 0, none, Status.pending⟩]).2 0).head? =
       some (⟨1, 0, 0, 0, 0, none, Status.pending⟩ : CoordinateData).township) :=
  ⟨by decide, by decide, rfl,
    C8_status_monotonicity [("甲")] (fun _ _ => some [(⟨1, ("甲")⟩ : IdentEntry)])
      [⟨1, 0, 0, 0, 0, none, Status.pending⟩] (by decide) (by decide) 0
      ⟨1, 0, 0, 0, 0, none, Status.pending⟩ rfl⟩
